import Mathlib

/-!
# LC-3 interpreter (`lc3.go`): shallow embedding and verified properties

The Go program keeps the machine in three package-level variables
(`mem`, `reg`, `keyBuffer`) and runs a single `switch` over the opcode inside
`main`.  Here the globals become the fields of `State`, every `uint16` is a
natural number that is reduced `% 65536` wherever Go arithmetic can wrap, and
the three ways in which the Go program can fail to return normally are made
explicit in `Err`:

* a run-time panic for an array index outside the array,
* `os.Exit`,
* non-termination (the embedding runs out of fuel).
-/

namespace LC3

/-! ## Constants -/

/-- Length of the Go array `mem`: `var mem [65535]uint16`. -/
def MEM_SIZE : Nat := 65535

def R_R0 : Nat := 0
def R_R1 : Nat := 1
def R_R2 : Nat := 2
def R_R3 : Nat := 3
def R_R4 : Nat := 4
def R_R5 : Nat := 5
def R_R6 : Nat := 6
def R_R7 : Nat := 7
def R_PC : Nat := 8
def R_COND : Nat := 9
/-- Length of the Go array `reg`: `var reg [R_COUNT]uint16`. -/
def R_COUNT : Nat := 10

def OP_BR : Nat := 0
def OP_ADD : Nat := 1
def OP_LD : Nat := 2
def OP_ST : Nat := 3
def OP_JSR : Nat := 4
def OP_AND : Nat := 5
def OP_LDR : Nat := 6
def OP_STR : Nat := 7
def OP_RTI : Nat := 8
def OP_NOT : Nat := 9
def OP_LDI : Nat := 10
def OP_STI : Nat := 11
def OP_JMP : Nat := 12
def OP_RES : Nat := 13
def OP_LEA : Nat := 14
def OP_TRAP : Nat := 15

def FL_POS : Nat := 1 <<< 0
def FL_ZRO : Nat := 1 <<< 1
def FL_NEG : Nat := 1 <<< 2

def TRAP_GETC : Nat := 0x20
def TRAP_OUT : Nat := 0x21
def TRAP_PUTS : Nat := 0x22
def TRAP_IN : Nat := 0x23
def TRAP_PUTSP : Nat := 0x24
def TRAP_HALT : Nat := 0x25

def PC_START : Nat := 0x3000

def MR_KBSR : Nat := 0xFE00
def MR_KBDR : Nat := 0xFE02

/-! ## Machine state and outcomes -/

/-- One item written to standard output. -/
inductive Out where
  /-- One character, the one with code point `c`, encoded in UTF-8. -/
  | chr (c : Nat)
  /-- The line `Trap code not implemented: 0x....` printed for the word `instr`. -/
  | trapNotImplemented (instr : Nat)
  /-- The line `NOT IMPLEMENTED YET!`. -/
  | notImplementedYet
  /-- The line `Bad OPCODE! `. -/
  | badOpcode
  /-- The line `LC3 [image-file1]..`. -/
  | usage
deriving DecidableEq, Repr

/-- The package-level variables of `lc3.go`, the text written so far, and the
local variable `running` of `main`.  `mem` and `reg` are Go arrays; they are
functions here, and every access checks the index against the array length
where the index is not masked to the register range. -/
structure State where
  mem : Nat → Nat
  reg : Nat → Nat
  keyBuffer : List Int
  out : List Out
  running : Nat

/-- The ways in which the Go code does not return normally. -/
inductive Err where
  /-- The run-time panic `index out of range`. -/
  | indexOutOfRange
  /-- The call `os.Exit(code)`, made in state `s`. -/
  | osExit (code : Nat) (s : State)
  /-- The embedding ran out of fuel. -/
  | outOfFuel

/-! ## Helpers: `signExtend`, `updateFlags`, `memWrite`, `memRead` -/

/-- The Go function `signExtend(x uint16, bitCount int) uint16`.  The constant
`0xFFFF` takes the type of `x`, so the shifted mask is truncated to 16 bits.
Every caller passes `bitCount` 5, 6, 9 or 11. -/
def signExtend (x : Nat) (bitCount : Nat) : Nat :=
  if (x >>> (bitCount - 1)) &&& 1 ≠ 0 then
    x ||| ((0xFFFF <<< bitCount) % 65536)
  else
    x

/-- The Go function `updateFlags(rIndex uint16)`, on the array `reg`. -/
def updateFlags (reg : Nat → Nat) (rIndex : Nat) : Except Err (Nat → Nat) :=
  if rIndex < R_COUNT then
    if reg rIndex = 0 then
      .ok (Function.update reg R_COND FL_ZRO)
    else if reg rIndex >>> 15 = 1 then
      .ok (Function.update reg R_COND FL_NEG)
    else
      .ok (Function.update reg R_COND FL_POS)
  else
    .error .indexOutOfRange

/-- The Go function `memWrite(address, val)`: `mem[address] = val`. -/
def memWrite (mem : Nat → Nat) (address val : Nat) : Except Err (Nat → Nat) :=
  if address < MEM_SIZE then
    .ok (Function.update mem address val)
  else
    .error .indexOutOfRange

/-- The Go function `memRead(address)`.  It calls itself when the address is
`MR_KBSR`, so the embedding carries fuel; the result is the word read together
with the memory after the call. -/
def memRead : Nat → (Nat → Nat) → Nat → Except Err (Nat × (Nat → Nat))
  | 0, _, _ => .error .outOfFuel
  | fuel + 1, mem, address =>
    let afterStatus : Except Err (Nat → Nat) :=
      if address = MR_KBSR then
        match memRead fuel mem MR_KBSR with
        | .ok (v, mem1) => memWrite mem1 MR_KBSR (v &&& 0x7FFF)
        | .error e => .error e
      else
        .ok mem
    match afterStatus with
    | .error e => .error e
    | .ok mem2 =>
      if address ≤ 65535 then
        if address < MEM_SIZE then
          .ok (mem2 address % 65536, mem2)
        else
          .error .indexOutOfRange
      else
        .ok (0, mem2)

/-! ## Printing a word with the verb `%c` -/

/-- The code point of the character that `fmt.Printf("%c", rune(c))` writes:
`c` itself, except that the verb writes the replacement character `U+FFFD`
for a value beyond `0x10FFFF` and for a surrogate value (`0xD800`..`0xDFFF`),
which has no UTF-8 encoding. -/
def printedRune (c : Nat) : Nat :=
  if 0x10FFFF < c then 0xFFFD
  else if 0xD800 ≤ c ∧ c ≤ 0xDFFF then 0xFFFD
  else c

/-! ## The busy-wait of `TRAP_GETC` and the loop of `TRAP_PUTS` -/

/-- The loop `for { if len(keyBuffer) > 0 { break } }`.  Nothing inside the
loop changes `keyBuffer`. -/
def waitKey : Nat → List Int → Except Err Unit
  | 0, _ => .error .outOfFuel
  | fuel + 1, keyBuffer =>
    if keyBuffer.length > 0 then .ok () else waitKey fuel keyBuffer

/-- The loop of `TRAP_PUTS`,
`for ok := true; ok; ok = (chr != 0x0) { chr = mem[r0+i] & 0xFFFF; print chr; i++ }`,
entered with the counter `i` and the text `out` written so far.  The array is
indexed directly, not through `memRead`. -/
def putsLoop : Nat → (Nat → Nat) → Nat → Nat → List Out → Except Err (List Out)
  | 0, _, _, _, _ => .error .outOfFuel
  | fuel + 1, mem, r0, i, out =>
    let a := (r0 + i) % 65536
    if a < MEM_SIZE then
      let chr := mem a &&& 0xFFFF
      let out1 := out ++ [Out.chr (printedRune chr)]
      let i1 := (i + 1) % 65536
      if chr ≠ 0 then putsLoop fuel mem r0 i1 out1 else .ok out1
    else
      .error .indexOutOfRange

/-! ## The cases of the opcode `switch` in `main` -/

/-- The case `OP_ADD`. -/
def execADD (s : State) (instr : Nat) : Except Err State :=
  let r0 := (instr >>> 9) &&& 0x7
  let r1 := (instr >>> 6) &&& 0x7
  let imm5 := (instr >>> 5) &&& 0x1
  let reg1 : Nat → Nat :=
    if imm5 = 1 then
      Function.update s.reg r0 ((s.reg r1 + signExtend (instr &&& 0x1F) 5) % 65536)
    else
      Function.update s.reg r0 ((s.reg r1 + s.reg (instr &&& 0x7)) % 65536)
  match updateFlags reg1 r0 with
  | .ok reg2 => .ok { s with reg := reg2 }
  | .error e => .error e

/-- The case `OP_AND`. -/
def execAND (s : State) (instr : Nat) : Except Err State :=
  let r0 := (instr >>> 9) &&& 0x7
  let r1 := (instr >>> 6) &&& 0x7
  let imm5 := (instr >>> 5) &&& 0x1
  let reg1 : Nat → Nat :=
    if imm5 = 1 then
      Function.update s.reg r0 (s.reg r1 &&& signExtend (instr &&& 0x1F) 5)
    else
      Function.update s.reg r0 (s.reg r1 &&& s.reg (instr &&& 0x7))
  match updateFlags reg1 r0 with
  | .ok reg2 => .ok { s with reg := reg2 }
  | .error e => .error e

/-- The case `OP_NOT`: `reg[r0] = ^reg[r1]`. -/
def execNOT (s : State) (instr : Nat) : Except Err State :=
  let r0 := (instr >>> 9) &&& 0x7
  let r1 := (instr >>> 6) &&& 0x7
  let reg1 : Nat → Nat := Function.update s.reg r0 ((0xFFFF ^^^ s.reg r1) % 65536)
  match updateFlags reg1 r0 with
  | .ok reg2 => .ok { s with reg := reg2 }
  | .error e => .error e

/-- The case `OP_BR`. -/
def execBR (s : State) (instr : Nat) : Except Err State :=
  let PCOffset := signExtend (instr &&& 0x1FF) 9
  let condFlag := (instr >>> 9) &&& 0x7
  if condFlag &&& s.reg R_COND ≠ 0 then
    .ok { s with reg := Function.update s.reg R_PC ((s.reg R_PC + PCOffset) % 65536) }
  else
    .ok s

/-- The case `OP_JMP`. -/
def execJMP (s : State) (instr : Nat) : Except Err State :=
  let r1 := (instr >>> 6) &&& 0x7
  .ok { s with reg := Function.update s.reg R_PC (s.reg r1) }

/-- The case `OP_JSR`: `reg[R_R7] = reg[R_PC]` comes first, and the base
register is read from the array after that assignment. -/
def execJSR (s : State) (instr : Nat) : Except Err State :=
  let reg1 : Nat → Nat := Function.update s.reg R_R7 (s.reg R_PC)
  let offsetFlag := (instr >>> 11) &&& 1
  if offsetFlag = 0 then
    let r1 := (instr >>> 6) &&& 0x7
    .ok { s with reg := Function.update reg1 R_PC (reg1 r1) }
  else
    let PCOffset := signExtend (instr &&& 0x7FF) 11
    .ok { s with reg := Function.update reg1 R_PC ((reg1 R_PC + PCOffset) % 65536) }

/-- The case `OP_LD`. -/
def execLD (fuel : Nat) (s : State) (instr : Nat) : Except Err State :=
  let r0 := (instr >>> 9) &&& 0x7
  let PCOffset9 := signExtend (instr &&& 0x1FF) 9
  match memRead fuel s.mem ((s.reg R_PC + PCOffset9) % 65536) with
  | .error e => .error e
  | .ok (v, mem1) =>
    match updateFlags (Function.update s.reg r0 v) r0 with
    | .ok reg2 => .ok { s with mem := mem1, reg := reg2 }
    | .error e => .error e

/-- The case `OP_LDI`: `reg[r0] = memRead(memRead(reg[R_PC] + PCOffset9))`. -/
def execLDI (fuel : Nat) (s : State) (instr : Nat) : Except Err State :=
  let r0 := (instr >>> 9) &&& 0x7
  let PCOffset9 := signExtend (instr &&& 0x1FF) 9
  match memRead fuel s.mem ((s.reg R_PC + PCOffset9) % 65536) with
  | .error e => .error e
  | .ok (a, mem1) =>
    match memRead fuel mem1 a with
    | .error e => .error e
    | .ok (v, mem2) =>
      match updateFlags (Function.update s.reg r0 v) r0 with
      | .ok reg2 => .ok { s with mem := mem2, reg := reg2 }
      | .error e => .error e

/-- The case `OP_LDR`: `reg[r0] = memRead(r1 + offset)`, where `r1` is the
three-bit field itself. -/
def execLDR (fuel : Nat) (s : State) (instr : Nat) : Except Err State :=
  let r0 := (instr >>> 9) &&& 0x7
  let r1 := (instr >>> 6) &&& 0x7
  let offset := signExtend (instr &&& 0x3F) 6
  match memRead fuel s.mem ((r1 + offset) % 65536) with
  | .error e => .error e
  | .ok (v, mem1) =>
    match updateFlags (Function.update s.reg r0 v) r0 with
    | .ok reg2 => .ok { s with mem := mem1, reg := reg2 }
    | .error e => .error e

/-- The case `OP_LEA`: `reg[r0] = memRead(reg[R_PC] + PCoffset9)`. -/
def execLEA (fuel : Nat) (s : State) (instr : Nat) : Except Err State :=
  let r0 := (instr >>> 9) &&& 0x7
  let PCoffset9 := signExtend (instr &&& 0x1FF) 9
  match memRead fuel s.mem ((s.reg R_PC + PCoffset9) % 65536) with
  | .error e => .error e
  | .ok (v, mem1) =>
    match updateFlags (Function.update s.reg r0 v) r0 with
    | .ok reg2 => .ok { s with mem := mem1, reg := reg2 }
    | .error e => .error e

/-- The case `OP_ST`. -/
def execST (s : State) (instr : Nat) : Except Err State :=
  let r0 := (instr >>> 9) &&& 0x7
  let PCOffset9 := signExtend (instr &&& 0x1FF) 9
  match memWrite s.mem ((s.reg R_PC + PCOffset9) % 65536) (s.reg r0) with
  | .ok mem1 => .ok { s with mem := mem1 }
  | .error e => .error e

/-- The case `OP_STI`. -/
def execSTI (fuel : Nat) (s : State) (instr : Nat) : Except Err State :=
  let r0 := (instr >>> 9) &&& 0x7
  let PCOffset9 := signExtend (instr &&& 0x1FF) 9
  match memRead fuel s.mem ((s.reg R_PC + PCOffset9) % 65536) with
  | .error e => .error e
  | .ok (a, mem1) =>
    match memWrite mem1 a (s.reg r0) with
    | .ok mem2 => .ok { s with mem := mem2 }
    | .error e => .error e

/-- The case `OP_STR`. -/
def execSTR (s : State) (instr : Nat) : Except Err State :=
  let r0 := (instr >>> 9) &&& 0x7
  let r1 := (instr >>> 6) &&& 0x7
  let PCOffset6 := signExtend (instr &&& 0x3F) 6
  match memWrite s.mem ((s.reg r1 + PCOffset6) % 65536) (s.reg r0) with
  | .ok mem1 => .ok { s with mem := mem1 }
  | .error e => .error e

/-- The case `OP_TRAP`, with its inner `switch instr & 0xFF`. -/
def execTRAP (fuel : Nat) (s : State) (instr : Nat) : Except Err State :=
  let vect := instr &&& 0xFF
  if vect = TRAP_GETC then
    match waitKey fuel s.keyBuffer with
    | .error e => .error e
    | .ok _ =>
      match s.keyBuffer with
      | [] => .error .indexOutOfRange
      | k :: rest =>
        .ok { s with reg := Function.update s.reg R_R0 (k % 65536).toNat, keyBuffer := rest }
  else if vect = TRAP_OUT then
    .ok { s with out := s.out ++ [Out.chr (printedRune (s.reg R_R0))] }
  else if vect = TRAP_PUTS then
    match putsLoop fuel s.mem (s.reg R_R0) 0 s.out with
    | .error e => .error e
    | .ok out1 => .ok { s with out := out1 }
  else
    .ok { s with out := s.out ++ [Out.trapNotImplemented instr] }

/-- The opcode `switch` of `main`, applied to the fetched word `instr`. -/
def execOp (fuel : Nat) (s : State) (instr : Nat) : Except Err State :=
  let op := instr >>> 12
  if op = OP_ADD then execADD s instr
  else if op = OP_AND then execAND s instr
  else if op = OP_NOT then execNOT s instr
  else if op = OP_BR then execBR s instr
  else if op = OP_JMP then execJMP s instr
  else if op = OP_JSR then execJSR s instr
  else if op = OP_LD then execLD fuel s instr
  else if op = OP_LDI then execLDI fuel s instr
  else if op = OP_LDR then execLDR fuel s instr
  else if op = OP_LEA then execLEA fuel s instr
  else if op = OP_ST then execST s instr
  else if op = OP_STI then execSTI fuel s instr
  else if op = OP_STR then execSTR s instr
  else if op = OP_TRAP then execTRAP fuel s instr
  else if op = OP_RES then
    .error (.osExit 2 { s with out := s.out ++ [Out.notImplementedYet] })
  else if op = OP_RTI then
    .error (.osExit 2 { s with out := s.out ++ [Out.notImplementedYet] })
  else
    .error (.osExit 2 { s with out := s.out ++ [Out.badOpcode] })

/-! ## The loop of `main` -/

/-- One pass through the body of `for running != 0 { ... }`:
`instr = memRead(reg[R_PC] + 1)`, the opcode `switch`, then `running = 0`. -/
def loopBody (fuel : Nat) (s : State) : Except Err State :=
  match memRead fuel s.mem ((s.reg R_PC + 1) % 65536) with
  | .error e => .error e
  | .ok (instr, mem1) =>
    match execOp fuel { s with mem := mem1 } instr with
    | .error e => .error e
    | .ok s1 => .ok { s1 with running := 0 }

/-- The loop `for running != 0 { ... }`; each pass uses one unit of fuel. -/
def runLoop : Nat → State → Except Err State
  | 0, _ => .error .outOfFuel
  | fuel + 1, s =>
    if s.running ≠ 0 then
      match loopBody fuel s with
      | .error e => .error e
      | .ok s1 => runLoop fuel s1
    else
      .ok s

/-- The zero-initialised package-level variables. -/
def zeroState : State :=
  { mem := fun _ => 0, reg := fun _ => 0, keyBuffer := [], out := [], running := 0 }

/-- The state in which `main` enters its loop: `reg[R_PC] = PC_START` and
`running := 1`. -/
def startState : State :=
  { zeroState with reg := Function.update zeroState.reg R_PC PC_START, running := 1 }

/-- The function `main`, given `len(os.Args)`. -/
def main (fuel : Nat) (argc : Nat) : Except Err State :=
  if argc < 2 then
    .error (.osExit 2 { zeroState with out := [Out.usage] })
  else
    runLoop fuel startState

/-! ## Reading a bit field as a signed integer -/

/-- The signed integer that the low `w` bits of `x` represent in two's
complement: the field value itself below `2 ^ (w - 1)`, and the field value
minus `2 ^ w` from there on. -/
def signedOfLowBits (x w : Nat) : Int :=
  if x % 2 ^ w < 2 ^ (w - 1) then ((x % 2 ^ w : Nat) : Int)
  else ((x % 2 ^ w : Nat) : Int) - 2 ^ w

/-- The 16-bit two's-complement encoding of an integer. -/
def encode16 (z : Int) : Nat := (z % 65536).toNat

/-- The flag that the sign and zero-ness of a 16-bit value select. -/
def flagOf (v : Nat) : Nat :=
  if v = 0 then FL_ZRO else if v.testBit 15 then FL_NEG else FL_POS

/-- Bits `hi` down to `lo` of the word `x`, as a number. -/
def bits (x hi lo : Nat) : Nat := x / 2 ^ lo % 2 ^ (hi - lo + 1)

/-! ## Example states -/

/-- All registers zero except `R1 = 5`. -/
def addState : State :=
  { zeroState with reg := Function.update zeroState.reg R_R1 5 }

/-- The counter at `0x3000`, `ADD R0, R0, #1` at `0x3000` and
`ADD R1, R1, #2` at `0x3001`. -/
def fetchState : State :=
  { zeroState with
    mem := fun a => if a = 0x3000 then 0x1021 else if a = 0x3001 then 0x1262 else 0
    reg := Function.update zeroState.reg R_PC 0x3000
    running := 1 }

/-- The counter at `0x3000`, `mem[0x3000] = 0x3001` and `mem[0x3001] = 0x002A`. -/
def ldiState : State :=
  { zeroState with
    mem := fun a => if a = 0x3000 then 0x3001 else if a = 0x3001 then 0x002A else 0
    reg := Function.update zeroState.reg R_PC 0x3000 }

/-- The counter at `0x3000` and `mem[0x3000] = 0xFFFF`, the address of the last
cell of a 65536-cell memory. -/
def ldiTopState : State :=
  { zeroState with
    mem := fun a => if a = 0x3000 then 0xFFFF else 0
    reg := Function.update zeroState.reg R_PC 0x3000 }

/-- The base register `R1 = 0x4000`, `mem[0x4000] = 0x1234` and
`mem[1] = 0x5678`. -/
def ldrState : State :=
  { zeroState with
    mem := fun a => if a = 0x4000 then 0x1234 else if a = 1 then 0x5678 else 0
    reg := Function.update zeroState.reg R_R1 0x4000 }

/-- The counter at `0x3000` and `mem[0x3002] = 0x1234`. -/
def leaState : State :=
  { zeroState with
    mem := fun a => if a = 0x3002 then 0x1234 else 0
    reg := Function.update zeroState.reg R_PC 0x3000 }

/-- The base register `R1 = 0xFFFF` and `R0 = 0x00AB`. -/
def strTopState : State :=
  { zeroState with
    reg := Function.update (Function.update zeroState.reg R_R1 0xFFFF) R_R0 0x00AB }

/-- The base register `R1 = 0x4000` and `R0 = 0x00AB`. -/
def strState : State :=
  { zeroState with
    reg := Function.update (Function.update zeroState.reg R_R1 0x4000) R_R0 0x00AB }

/-- The counter at `0x3000`, the condition register holding `FL_NEG`. -/
def brState : State :=
  { zeroState with
    reg := Function.update (Function.update zeroState.reg R_PC 0x3000) R_COND FL_NEG }

/-- The counter at `0x3000`, `R2 = 0x5000` and `R7 = 0x1111`. -/
def jsrState : State :=
  { zeroState with
    reg := Function.update (Function.update (Function.update zeroState.reg R_PC 0x3000)
      R_R2 0x5000) R_R7 0x1111 }

/-- All registers zero, one pending key `0x41` in the key buffer. -/
def keyState : State :=
  { zeroState with keyBuffer := [0x41] }

/-- The register `R0 = 0x4000` and the words `0x4F` ("O"), `0x4B` ("K"), `0` in
the cells from `0x4000`. -/
def putsState : State :=
  { zeroState with
    mem := fun a => if a = 0x4000 then 0x4F else if a = 0x4001 then 0x4B else 0
    reg := Function.update zeroState.reg R_R0 0x4000 }

/-- The register `R0 = 0x0141`: low byte `0x41`, high byte `0x01`. -/
def outState : State :=
  { zeroState with reg := Function.update zeroState.reg R_R0 0x0141 }

/-- The register `R0 = 0xD800`, a surrogate value. -/
def surrogateState : State :=
  { zeroState with reg := Function.update zeroState.reg R_R0 0xD800 }

/-- The loop entered with the counter at `0x3000`, a TRAP with the vector
`0xFF` in the cell that the first pass fetches (`0x3001`) and
`ADD R0, R0, #1` in the two cells after it. -/
def trapLoopState : State :=
  { zeroState with
    mem := fun a =>
      if a = 0x3001 then 0xF0FF else if a = 0x3002 then 0x1021
      else if a = 0x3003 then 0x1021 else 0
    reg := Function.update zeroState.reg R_PC 0x3000
    running := 1 }

/-- The loop entered with the counter at `0x3000`, the registers `R3 = 0x0033`
and `COND = FL_NEG`, and an RTI word in the cell that the pass fetches. -/
def rtiState : State :=
  { zeroState with
    mem := fun a => if a = 0x3001 then 0x8000 else 0
    reg := Function.update (Function.update (Function.update zeroState.reg R_PC 0x3000)
      R_R3 0x0033) R_COND FL_NEG
    running := 1 }

/-- The counter at `0x3000`, `R0 = 0x00AB`, `R1 = 0x4000` and the condition
register holding `FL_NEG`. -/
def storeState : State :=
  { zeroState with
    reg := Function.update (Function.update (Function.update (Function.update
      zeroState.reg R_PC 0x3000) R_R0 0x00AB) R_R1 0x4000) R_COND FL_NEG }

/-- The counter at `0x3000` and `R7 = 0x1111`. -/
def jsrrState : State :=
  { zeroState with
    reg := Function.update (Function.update zeroState.reg R_PC 0x3000) R_R7 0x1111 }

/-! ## Flags and runs -/

/-- The condition register holds exactly one of the three flags. -/
def oneFlag (c : Nat) : Prop := c = FL_POS ∨ c = FL_ZRO ∨ c = FL_NEG

instance oneFlagDecidable (c : Nat) : Decidable (oneFlag c) := by
  unfold oneFlag
  infer_instance

/-- The opcodes of the flag-setting instructions: ADD, AND, NOT, LD, LDI, LDR
and LEA. -/
def isFlagSetting (op : Nat) : Prop :=
  op = OP_ADD ∨ op = OP_AND ∨ op = OP_NOT ∨ op = OP_LD ∨ op = OP_LDI ∨ op = OP_LDR ∨
    op = OP_LEA

instance isFlagSettingDecidable (op : Nat) : Decidable (isFlagSetting op) := by
  unfold isFlagSetting
  infer_instance

/-- The states of a run.  `main` enters its loop with the registers of
`startState`; the memory image and the pending keys are left open, so that a
loaded program is covered as well as the all-zero memory of the Go program.
Every pass of the loop body that returns leads from a state of the run to
the next one. -/
inductive Reachable : State → Prop where
  | start (mem : Nat → Nat) (keyBuffer : List Int) :
      Reachable { startState with mem := mem, keyBuffer := keyBuffer }
  | pass (fuel : Nat) (s s1 : State) :
      Reachable s → loopBody fuel s = .ok s1 → Reachable s1

/-! ## Arithmetic lemmas -/

theorem or_high_mask (x w : Nat) (hw : w ≤ 16) (hx : x < 65536) :
    x ||| (2 ^ w * (2 ^ (16 - w) - 1)) = 2 ^ w * (2 ^ (16 - w) - 1) + x % 2 ^ w := by
  rw [Nat.mul_add_lt_is_or (Nat.mod_lt _ (by positivity))]
  apply Nat.eq_of_testBit_eq
  intro j
  have hm : 2 ^ w * (2 ^ (16 - w) - 1) = (2 ^ (16 - w) - 1) <<< w := by
    rw [Nat.shiftLeft_eq, Nat.mul_comm]
  rw [hm]
  simp only [Nat.testBit_or, Nat.testBit_shiftLeft, Nat.testBit_two_pow_sub_one,
    Nat.testBit_mod_two_pow]
  by_cases h1 : j < w
  · have : ¬ (j ≥ w) := by omega
    simp [h1, this]
  · have h2 : j ≥ w := by omega
    by_cases h3 : j < 16
    · have : j - w < 16 - w := by omega
      simp [h2, this]
    · have hxj : x < 2 ^ j := by
        have : 2 ^ 16 ≤ 2 ^ j := Nat.pow_le_pow_right (by norm_num) (by omega)
        omega
      have : ¬ (j - w < 16 - w) := by omega
      simp [Nat.testBit_lt_two_pow hxj, this, h1]

theorem shiftRight_and_one (x k : Nat) : (x >>> k) &&& 1 = x / 2 ^ k % 2 := by
  rw [Nat.and_one_is_mod, Nat.shiftRight_eq_div_pow]

theorem testBit_iff_div_mod (x k : Nat) : x.testBit k = true ↔ x / 2 ^ k % 2 = 1 := by
  rw [Nat.testBit_to_div_mod]; simp

/-- The value of `signExtend` when the sign bit of the field is set and the
width is at most 16: the low `w` bits of `x` below a run of ones. -/
theorem signExtend_of_bit (x w : Nat) (hw : w ≤ 16) (hx : x < 65536)
    (hb : x / 2 ^ (w - 1) % 2 = 1) (hm : (0xFFFF <<< w) % 65536 = 2 ^ w * (2 ^ (16 - w) - 1)) :
    signExtend x w = 2 ^ w * (2 ^ (16 - w) - 1) + x % 2 ^ w := by
  unfold signExtend
  rw [shiftRight_and_one, hb, hm, or_high_mask x w hw hx]
  simp

theorem signExtend_of_not_bit (x w : Nat) (hb : x / 2 ^ (w - 1) % 2 = 0) :
    signExtend x w = x := by
  unfold signExtend
  rw [shiftRight_and_one, hb]
  simp

/-- On a field that has been masked to `w` bits, `signExtend` is the 16-bit
encoding of the signed reading of the field, for the four widths in use. -/
theorem signExtend_eq_encode16 (x w : Nat) (hw : w = 5 ∨ w = 6 ∨ w = 9 ∨ w = 11)
    (hx : x < 65536) (h : x < 2 ^ w ∨ x.testBit (w - 1) = true) :
    signExtend x w = encode16 (signedOfLowBits x w) := by
  rw [testBit_iff_div_mod] at h
  have hb : x / 2 ^ (w - 1) % 2 = 1 ∨ x / 2 ^ (w - 1) % 2 = 0 := by omega
  rcases hw with rfl | rfl | rfl | rfl <;> rcases hb with hb | hb
  all_goals first
    | (rw [signExtend_of_bit x _ (by norm_num) hx hb (by decide)]
       simp only [encode16, signedOfLowBits]
       norm_num at hb h ⊢
       split <;> omega)
    | (rw [signExtend_of_not_bit x _ hb]
       simp only [encode16, signedOfLowBits]
       norm_num at hb h ⊢
       split <;> omega)

theorem and_seven (x : Nat) : x &&& 7 = x % 8 :=
  Nat.and_pow_two_sub_one_eq_mod x 3

theorem field_lt_count (x : Nat) : x &&& 7 < R_COUNT := by
  rw [and_seven]; unfold R_COUNT; omega

theorem shiftRight_fifteen (v : Nat) (hv : v < 65536) :
    v >>> 15 = 1 ↔ v.testBit 15 = true := by
  rw [testBit_iff_div_mod, Nat.shiftRight_eq_div_pow]
  norm_num
  omega

/-- The effect of `updateFlags` on a register that holds the 16-bit value `v`. -/
theorem updateFlags_eq (reg : Nat → Nat) (r : Nat) (hr : r < R_COUNT) (hv : reg r < 65536) :
    updateFlags reg r = .ok (Function.update reg R_COND (flagOf (reg r))) := by
  unfold updateFlags flagOf
  rw [if_pos hr]
  by_cases h0 : reg r = 0
  · simp [h0]
  · by_cases h1 : reg r >>> 15 = 1
    · have := (shiftRight_fifteen _ hv).1 h1
      simp [h0, h1, this]
    · have : ¬ ((reg r).testBit 15 = true) := fun h => h1 ((shiftRight_fifteen _ hv).2 h)
      simp [h0, h1, this]

theorem flagOf_cases (v : Nat) :
    (flagOf v = FL_ZRO ↔ v = 0) ∧ (flagOf v = FL_NEG ↔ v ≠ 0 ∧ v.testBit 15 = true) ∧
      (flagOf v = FL_POS ↔ v ≠ 0 ∧ v.testBit 15 = false) := by
  unfold flagOf FL_ZRO FL_NEG FL_POS
  by_cases h0 : v = 0
  · simp [h0]
  · by_cases h1 : v.testBit 15 = true
    · simp [h0, h1]
    · simp [h0, h1]

/-! ### Field extraction by shift and mask -/

theorem fld_11_9 (x : Nat) : (x >>> 9) &&& 7 = bits x 11 9 := by
  rw [and_seven, Nat.shiftRight_eq_div_pow]; rfl

theorem fld_8_6 (x : Nat) : (x >>> 6) &&& 7 = bits x 8 6 := by
  rw [and_seven, Nat.shiftRight_eq_div_pow]; rfl

theorem fld_2_0 (x : Nat) : x &&& 7 = bits x 2 0 := by
  rw [and_seven]; simp [bits]

theorem fld_5_5 (x : Nat) : (x >>> 5) &&& 1 = bits x 5 5 := by
  rw [shiftRight_and_one]; rfl

theorem fld_11_11 (x : Nat) : (x >>> 11) &&& 1 = bits x 11 11 := by
  rw [shiftRight_and_one]; rfl

theorem fld_4_0 (x : Nat) : x &&& 0x1F = bits x 4 0 := by
  rw [show x &&& 0x1F = x % 2 ^ 5 from Nat.and_pow_two_sub_one_eq_mod x 5]; simp [bits]

theorem fld_5_0 (x : Nat) : x &&& 0x3F = bits x 5 0 := by
  rw [show x &&& 0x3F = x % 2 ^ 6 from Nat.and_pow_two_sub_one_eq_mod x 6]; simp [bits]

theorem fld_7_0 (x : Nat) : x &&& 0xFF = bits x 7 0 := by
  rw [show x &&& 0xFF = x % 2 ^ 8 from Nat.and_pow_two_sub_one_eq_mod x 8]; simp [bits]

theorem fld_8_0 (x : Nat) : x &&& 0x1FF = bits x 8 0 := by
  rw [show x &&& 0x1FF = x % 2 ^ 9 from Nat.and_pow_two_sub_one_eq_mod x 9]; simp [bits]

theorem fld_10_0 (x : Nat) : x &&& 0x7FF = bits x 10 0 := by
  rw [show x &&& 0x7FF = x % 2 ^ 11 from Nat.and_pow_two_sub_one_eq_mod x 11]; simp [bits]

theorem bits_lt (x hi lo : Nat) : bits x hi lo < 2 ^ (hi - lo + 1) :=
  Nat.mod_lt _ (by positivity)

/-- The sign extension of a masked `w`-bit field, for the widths in use. -/
theorem signExtend_bits (x w : Nat) (hw : w = 5 ∨ w = 6 ∨ w = 9 ∨ w = 11) :
    signExtend (bits x (w - 1) 0) w = encode16 (signedOfLowBits (bits x (w - 1) 0) w) := by
  have hlt : bits x (w - 1) 0 < 2 ^ w := by
    have := bits_lt x (w - 1) 0
    rcases hw with rfl | rfl | rfl | rfl <;> simpa using this
  have h16 : bits x (w - 1) 0 < 65536 := by
    rcases hw with rfl | rfl | rfl | rfl <;> norm_num at hlt ⊢ <;> omega
  exact signExtend_eq_encode16 _ w hw h16 (Or.inl hlt)

/-- Adding an encoded signed offset with 16-bit wrap-around is adding the
integer it encodes, modulo `2 ^ 16`. -/
theorem add_encode16 (a : Nat) (z : Int) :
    (a + encode16 z) % 65536 = encode16 ((a : Int) + z) := by
  unfold encode16
  omega

theorem encode16_lt (z : Int) : encode16 z < 65536 := by
  unfold encode16
  omega

theorem encode16_natCast (a b : Nat) : (a + b) % 65536 = encode16 ((a : Int) + (b : Int)) := by
  unfold encode16
  omega

theorem signedOfLowBits_range (x w : Nat) (hw : 0 < w) :
    -(2 : Int) ^ (w - 1) ≤ signedOfLowBits x w ∧ signedOfLowBits x w < (2 : Int) ^ (w - 1) := by
  unfold signedOfLowBits
  have h1 : x % 2 ^ w < 2 ^ w := Nat.mod_lt _ (by positivity)
  have h2 : (2 : Nat) ^ w = 2 * 2 ^ (w - 1) := by
    obtain ⟨k, rfl⟩ : ∃ k, w = k + 1 := ⟨w - 1, by omega⟩
    simp [pow_succ, Nat.mul_comm]
  have h3 : ((2 : Nat) ^ w : Int) = 2 * (2 : Int) ^ (w - 1) := by exact_mod_cast h2
  split
  · rename_i h
    constructor
    · have : (0 : Int) ≤ (2 : Int) ^ (w - 1) := by positivity
      omega
    · exact_mod_cast h
  · rename_i h
    have h4 : ((x % 2 ^ w : Nat) : Int) < 2 * (2 : Int) ^ (w - 1) := by
      rw [← h3]; exact_mod_cast h1
    have h5 : (2 : Int) ^ (w - 1) ≤ ((x % 2 ^ w : Nat) : Int) := by
      exact_mod_cast Nat.le_of_not_lt h
    have h6 : ((2 : Int) ^ w) = 2 * (2 : Int) ^ (w - 1) := by exact_mod_cast h3
    constructor <;> omega

/-! ### Dispatch of the opcode `switch` -/

theorem execOp_of_ADD (fuel : Nat) (s : State) (instr : Nat) (h : instr >>> 12 = OP_ADD) :
    execOp fuel s instr = execADD s instr := by
  simp [execOp, h, OP_ADD]

theorem execOp_of_BR (fuel : Nat) (s : State) (instr : Nat) (h : instr >>> 12 = OP_BR) :
    execOp fuel s instr = execBR s instr := by
  simp [execOp, h, OP_ADD, OP_AND, OP_NOT, OP_BR]

theorem execOp_of_JSR (fuel : Nat) (s : State) (instr : Nat) (h : instr >>> 12 = OP_JSR) :
    execOp fuel s instr = execJSR s instr := by
  simp [execOp, h, OP_ADD, OP_AND, OP_NOT, OP_BR, OP_JMP, OP_JSR]

theorem execOp_of_LDI (fuel : Nat) (s : State) (instr : Nat) (h : instr >>> 12 = OP_LDI) :
    execOp fuel s instr = execLDI fuel s instr := by
  simp [execOp, h, OP_ADD, OP_AND, OP_NOT, OP_BR, OP_JMP, OP_JSR, OP_LD, OP_LDI]

theorem execOp_of_STR (fuel : Nat) (s : State) (instr : Nat) (h : instr >>> 12 = OP_STR) :
    execOp fuel s instr = execSTR s instr := by
  simp [execOp, h, OP_ADD, OP_AND, OP_NOT, OP_BR, OP_JMP, OP_JSR, OP_LD, OP_LDI, OP_LDR,
    OP_LEA, OP_ST, OP_STI, OP_STR]

/-! ### Memory access away from the two special addresses -/

/-- A read of a cell inside the array, other than the keyboard status cell,
returns the cell and leaves memory alone. -/
theorem memRead_plain (fuel : Nat) (mem : Nat → Nat) (a : Nat)
    (h1 : a ≠ MR_KBSR) (h2 : a < MEM_SIZE) :
    memRead (fuel + 1) mem a = .ok (mem a % 65536, mem) := by
  have h3 : a ≤ 65535 := by unfold MEM_SIZE at h2; omega
  simp [memRead, h1, h2, h3]

/-- A write to a cell inside the array. -/
theorem memWrite_plain (mem : Nat → Nat) (a v : Nat) (h : a < MEM_SIZE) :
    memWrite mem a v = .ok (Function.update mem a v) := by
  simp [memWrite, h]

/-- A write to the address `0xFFFF` or beyond is an index outside the array. -/
theorem memWrite_outside (mem : Nat → Nat) (a v : Nat) (h : MEM_SIZE ≤ a) :
    memWrite mem a v = .error .indexOutOfRange := by
  have : ¬ a < MEM_SIZE := by omega
  simp [memWrite, this]

/-! ### The memory instructions on addresses inside the array -/

/-- Away from the last address `0xFFFF` and the keyboard status address, LDI
loads `mem[mem[A]]` for `A` the counter plus the signed reading of bits 8-0,
and sets the flag of the loaded value. -/
theorem execOp_LDI_in_range (fuel : Nat) (s : State) (instr : Nat)
    (hop : instr >>> 12 = OP_LDI)
    (hA : encode16 ((s.reg R_PC : Int) + signedOfLowBits (bits instr 8 0) 9) ≠ MR_KBSR ∧
      encode16 ((s.reg R_PC : Int) + signedOfLowBits (bits instr 8 0) 9) < MEM_SIZE)
    (hB : s.mem (encode16 ((s.reg R_PC : Int) + signedOfLowBits (bits instr 8 0) 9)) % 65536
        ≠ MR_KBSR ∧
      s.mem (encode16 ((s.reg R_PC : Int) + signedOfLowBits (bits instr 8 0) 9)) % 65536
        < MEM_SIZE) :
    let A : Nat := encode16 ((s.reg R_PC : Int) + signedOfLowBits (bits instr 8 0) 9)
    let v : Nat := s.mem (s.mem A % 65536) % 65536
    execOp (fuel + 1) s instr =
      .ok { s with reg := Function.update (Function.update s.reg (bits instr 11 9) v)
                            R_COND (flagOf v) } := by
  intro A v
  have hs : signExtend (bits instr 8 0) 9 = encode16 (signedOfLowBits (bits instr 8 0) 9) :=
    signExtend_bits instr 9 (Or.inr (Or.inr (Or.inl rfl)))
  rw [execOp_of_LDI (fuel + 1) s instr hop]
  simp only [execLDI, fld_11_9 instr, fld_8_0 instr]
  rw [hs, add_encode16, memRead_plain fuel s.mem _ hA.1 hA.2]
  simp only []
  rw [memRead_plain fuel s.mem _ hB.1 hB.2]
  simp only []
  have hfl := updateFlags_eq (Function.update s.reg (bits instr 11 9) v) (bits instr 11 9)
    (by have := bits_lt instr 11 9; unfold R_COUNT; norm_num at this; omega)
    (by simp only [Function.update_same, v]; omega)
  simp only [Function.update_same] at hfl
  rw [hfl]

/-- Away from the last address `0xFFFF`, STR stores `reg[sr]` at
`reg[baseR]` plus the signed reading of bits 5-0 and changes nothing else;
at `0xFFFF` or beyond it ends in the run-time panic. -/
theorem execOp_STR_cases (fuel : Nat) (s : State) (instr : Nat)
    (hop : instr >>> 12 = OP_STR) :
    let A : Nat := encode16 ((s.reg (bits instr 8 6) : Int) + signedOfLowBits (bits instr 5 0) 6)
    execOp fuel s instr =
      if A < MEM_SIZE then
        .ok { s with mem := Function.update s.mem A (s.reg (bits instr 11 9)) }
      else .error .indexOutOfRange := by
  intro A
  have hs : signExtend (bits instr 5 0) 6 = encode16 (signedOfLowBits (bits instr 5 0) 6) :=
    signExtend_bits instr 6 (Or.inr (Or.inl rfl))
  rw [execOp_of_STR fuel s instr hop]
  simp only [execSTR, fld_11_9 instr, fld_8_6 instr, fld_5_0 instr]
  rw [hs, add_encode16]
  by_cases hA : A < MEM_SIZE
  · rw [if_pos hA, memWrite_plain _ _ _ hA]
  · rw [if_neg hA, memWrite_outside _ _ _ (Nat.le_of_not_lt hA)]

theorem execOp_of_LDR (fuel : Nat) (s : State) (instr : Nat) (h : instr >>> 12 = OP_LDR) :
    execOp fuel s instr = execLDR fuel s instr := by
  simp [execOp, h, OP_ADD, OP_AND, OP_NOT, OP_BR, OP_JMP, OP_JSR, OP_LD, OP_LDI, OP_LDR]

theorem execOp_of_LEA (fuel : Nat) (s : State) (instr : Nat) (h : instr >>> 12 = OP_LEA) :
    execOp fuel s instr = execLEA fuel s instr := by
  simp [execOp, h, OP_ADD, OP_AND, OP_NOT, OP_BR, OP_JMP, OP_JSR, OP_LD, OP_LDI, OP_LDR,
    OP_LEA]

/-- The address that LDR reads is formed from the register number in bits
8-6, not from the content of that register. -/
theorem execOp_LDR_in_range (fuel : Nat) (s : State) (instr : Nat)
    (hop : instr >>> 12 = OP_LDR)
    (hA : encode16 ((bits instr 8 6 : Int) + signedOfLowBits (bits instr 5 0) 6) < MEM_SIZE) :
    let A : Nat := encode16 ((bits instr 8 6 : Int) + signedOfLowBits (bits instr 5 0) 6)
    let v : Nat := s.mem A % 65536
    execOp (fuel + 1) s instr =
      .ok { s with reg := Function.update (Function.update s.reg (bits instr 11 9) v)
                            R_COND (flagOf v) } := by
  intro A v
  have hs : signExtend (bits instr 5 0) 6 = encode16 (signedOfLowBits (bits instr 5 0) 6) :=
    signExtend_bits instr 6 (Or.inr (Or.inl rfl))
  have hr := signedOfLowBits_range (bits instr 5 0) 6 (by norm_num)
  have hb : bits instr 8 6 < 8 := bits_lt instr 8 6
  have hne : A ≠ MR_KBSR := by
    simp only [A, encode16, MR_KBSR]
    norm_num at hr
    omega
  rw [execOp_of_LDR (fuel + 1) s instr hop]
  simp only [execLDR, fld_11_9 instr, fld_8_6 instr, fld_5_0 instr]
  rw [hs, add_encode16, memRead_plain fuel s.mem _ hne hA]
  simp only []
  have hfl := updateFlags_eq (Function.update s.reg (bits instr 11 9) v) (bits instr 11 9)
    (by have := bits_lt instr 11 9; unfold R_COUNT; norm_num at this; omega)
    (by simp only [Function.update_same, v]; omega)
  simp only [Function.update_same] at hfl
  rw [hfl]

/-- The LEA case is the LD case. -/
theorem execLEA_eq_execLD (fuel : Nat) (s : State) (instr : Nat) :
    execLEA fuel s instr = execLD fuel s instr := rfl

/-! ### The loop body -/

/-- When the cell after the counter is an ordinary cell of the array, one pass
of the loop body runs the `switch` on the word in that cell, in the same
state, and then clears `running`. -/
theorem loopBody_plain (fuel : Nat) (s : State)
    (h1 : (s.reg R_PC + 1) % 65536 ≠ MR_KBSR) (h2 : (s.reg R_PC + 1) % 65536 < MEM_SIZE) :
    loopBody (fuel + 1) s =
      match execOp (fuel + 1) s (s.mem ((s.reg R_PC + 1) % 65536) % 65536) with
      | .error e => .error e
      | .ok s1 => .ok { s1 with running := 0 } := by
  unfold loopBody
  rw [memRead_plain fuel s.mem _ h1 h2]

/-! ### `memRead` at the keyboard status address and elsewhere -/

/-- The call `memRead(MR_KBSR)` starts by calling `memRead(MR_KBSR)`: no
amount of fuel lets it return. -/
theorem memRead_KBSR (fuel : Nat) (mem : Nat → Nat) :
    memRead fuel mem MR_KBSR = .error .outOfFuel := by
  induction fuel with
  | zero => rfl
  | succ n ih => simp [memRead, ih]

/-- A call of `memRead` that returns was made for another address than the
keyboard status address and has left memory as it was. -/
theorem memRead_ok_inv (fuel : Nat) (mem mem1 : Nat → Nat) (a v : Nat)
    (h : memRead fuel mem a = .ok (v, mem1)) : a ≠ MR_KBSR ∧ mem1 = mem := by
  have hne : a ≠ MR_KBSR := by
    intro ha
    rw [ha, memRead_KBSR] at h
    cases h
  refine ⟨hne, ?_⟩
  cases fuel with
  | zero => simp [memRead] at h
  | succ n =>
    simp only [memRead, hne, if_false] at h
    split at h
    · split at h
      · cases h; rfl
      · cases h
    · cases h; rfl

/-! ### Dispatch of the remaining opcodes -/

theorem execOp_of_AND (fuel : Nat) (s : State) (instr : Nat) (h : instr >>> 12 = OP_AND) :
    execOp fuel s instr = execAND s instr := by
  simp [execOp, h, OP_ADD, OP_AND]

theorem execOp_of_NOT (fuel : Nat) (s : State) (instr : Nat) (h : instr >>> 12 = OP_NOT) :
    execOp fuel s instr = execNOT s instr := by
  simp [execOp, h, OP_ADD, OP_AND, OP_NOT]

theorem execOp_of_JMP (fuel : Nat) (s : State) (instr : Nat) (h : instr >>> 12 = OP_JMP) :
    execOp fuel s instr = execJMP s instr := by
  simp [execOp, h, OP_ADD, OP_AND, OP_NOT, OP_BR, OP_JMP]

theorem execOp_of_LD (fuel : Nat) (s : State) (instr : Nat) (h : instr >>> 12 = OP_LD) :
    execOp fuel s instr = execLD fuel s instr := by
  simp [execOp, h, OP_ADD, OP_AND, OP_NOT, OP_BR, OP_JMP, OP_JSR, OP_LD]

theorem execOp_of_ST (fuel : Nat) (s : State) (instr : Nat) (h : instr >>> 12 = OP_ST) :
    execOp fuel s instr = execST s instr := by
  simp [execOp, h, OP_ADD, OP_AND, OP_NOT, OP_BR, OP_JMP, OP_JSR, OP_LD, OP_LDI, OP_LDR,
    OP_LEA, OP_ST]

theorem execOp_of_STI (fuel : Nat) (s : State) (instr : Nat) (h : instr >>> 12 = OP_STI) :
    execOp fuel s instr = execSTI fuel s instr := by
  simp [execOp, h, OP_ADD, OP_AND, OP_NOT, OP_BR, OP_JMP, OP_JSR, OP_LD, OP_LDI, OP_LDR,
    OP_LEA, OP_ST, OP_STI]

theorem execOp_of_TRAP (fuel : Nat) (s : State) (instr : Nat) (h : instr >>> 12 = OP_TRAP) :
    execOp fuel s instr = execTRAP fuel s instr := by
  simp [execOp, h, OP_ADD, OP_AND, OP_NOT, OP_BR, OP_JMP, OP_JSR, OP_LD, OP_LDI, OP_LDR,
    OP_LEA, OP_ST, OP_STI, OP_STR, OP_TRAP]

/-- The two reserved opcodes end in `os.Exit(2)` after the diagnostic line,
with memory and registers as they were. -/
theorem execOp_of_reserved (fuel : Nat) (s : State) (instr : Nat)
    (h : instr >>> 12 = OP_RTI ∨ instr >>> 12 = OP_RES) :
    execOp fuel s instr =
      .error (.osExit 2 { s with out := s.out ++ [Out.notImplementedYet] }) := by
  rcases h with h | h <;>
    simp [execOp, h, OP_ADD, OP_AND, OP_NOT, OP_BR, OP_JMP, OP_JSR, OP_LD, OP_LDI, OP_LDR,
      OP_LEA, OP_ST, OP_STI, OP_STR, OP_TRAP, OP_RES, OP_RTI]

/-! ### The condition register across one instruction -/

/-- Whenever `updateFlags` returns, the condition register holds exactly one
flag and the other registers are untouched. -/
theorem updateFlags_ok_inv (reg reg2 : Nat → Nat) (r : Nat)
    (h : updateFlags reg r = .ok reg2) :
    oneFlag (reg2 R_COND) ∧ ∀ k, k ≠ R_COND → reg2 k = reg k := by
  unfold updateFlags at h
  split at h
  · split at h
    · cases h
      exact ⟨Or.inr (Or.inl (by simp)), fun k hk => by simp [Function.update, hk]⟩
    · split at h
      · cases h
        exact ⟨Or.inr (Or.inr (by simp)), fun k hk => by simp [Function.update, hk]⟩
      · cases h
        exact ⟨Or.inl (by simp), fun k hk => by simp [Function.update, hk]⟩
  · cases h

theorem execBR_cond (s s1 : State) (instr : Nat) (h : execBR s instr = .ok s1) :
    s1.reg R_COND = s.reg R_COND := by
  simp only [execBR] at h
  split at h <;> cases h
  · simp [Function.update, R_PC, R_COND]
  · rfl

theorem execJMP_cond (s s1 : State) (instr : Nat) (h : execJMP s instr = .ok s1) :
    s1.reg R_COND = s.reg R_COND := by
  simp only [execJMP] at h
  cases h
  simp [Function.update, R_PC, R_COND]

theorem execJSR_cond (s s1 : State) (instr : Nat) (h : execJSR s instr = .ok s1) :
    s1.reg R_COND = s.reg R_COND := by
  simp only [execJSR] at h
  split at h <;> cases h <;> simp [Function.update, R_PC, R_COND, R_R7]

theorem execST_reg (s s1 : State) (instr : Nat) (h : execST s instr = .ok s1) :
    s1.reg = s.reg := by
  simp only [execST] at h
  split at h <;> cases h
  rfl

theorem execSTI_reg (fuel : Nat) (s s1 : State) (instr : Nat)
    (h : execSTI fuel s instr = .ok s1) : s1.reg = s.reg := by
  simp only [execSTI] at h
  split at h
  · cases h
  · split at h <;> cases h
    rfl

theorem execSTR_reg (s s1 : State) (instr : Nat) (h : execSTR s instr = .ok s1) :
    s1.reg = s.reg := by
  simp only [execSTR] at h
  split at h <;> cases h
  rfl

theorem execTRAP_cond (fuel : Nat) (s s1 : State) (instr : Nat)
    (h : execTRAP fuel s instr = .ok s1) : s1.reg R_COND = s.reg R_COND := by
  simp only [execTRAP] at h
  by_cases h1 : instr &&& 0xFF = TRAP_GETC
  · rw [if_pos h1] at h
    split at h
    · cases h
    · split at h <;> cases h
      simp [Function.update, R_R0, R_COND]
  · rw [if_neg h1] at h
    by_cases h2 : instr &&& 0xFF = TRAP_OUT
    · rw [if_pos h2] at h
      cases h; rfl
    · rw [if_neg h2] at h
      by_cases h3 : instr &&& 0xFF = TRAP_PUTS
      · rw [if_pos h3] at h
        split at h <;> cases h
        rfl
      · rw [if_neg h3] at h
        cases h; rfl

theorem execADD_cond (s s1 : State) (instr : Nat) (h : execADD s instr = .ok s1) :
    oneFlag (s1.reg R_COND) := by
  simp only [execADD] at h
  split at h
  · rename_i reg2 heq
    cases h
    exact (updateFlags_ok_inv _ _ _ heq).1
  · cases h

theorem execAND_cond (s s1 : State) (instr : Nat) (h : execAND s instr = .ok s1) :
    oneFlag (s1.reg R_COND) := by
  simp only [execAND] at h
  split at h
  · rename_i reg2 heq
    cases h
    exact (updateFlags_ok_inv _ _ _ heq).1
  · cases h

theorem execNOT_cond (s s1 : State) (instr : Nat) (h : execNOT s instr = .ok s1) :
    oneFlag (s1.reg R_COND) := by
  simp only [execNOT] at h
  split at h
  · rename_i reg2 heq
    cases h
    exact (updateFlags_ok_inv _ _ _ heq).1
  · cases h

theorem execLD_cond (fuel : Nat) (s s1 : State) (instr : Nat)
    (h : execLD fuel s instr = .ok s1) : oneFlag (s1.reg R_COND) := by
  simp only [execLD] at h
  split at h
  · cases h
  · split at h
    · rename_i reg2 heq
      cases h
      exact (updateFlags_ok_inv _ _ _ heq).1
    · cases h

theorem execLDI_cond (fuel : Nat) (s s1 : State) (instr : Nat)
    (h : execLDI fuel s instr = .ok s1) : oneFlag (s1.reg R_COND) := by
  simp only [execLDI] at h
  split at h
  · cases h
  · split at h
    · cases h
    · split at h
      · rename_i reg2 heq
        cases h
        exact (updateFlags_ok_inv _ _ _ heq).1
      · cases h

theorem execLDR_cond (fuel : Nat) (s s1 : State) (instr : Nat)
    (h : execLDR fuel s instr = .ok s1) : oneFlag (s1.reg R_COND) := by
  simp only [execLDR] at h
  split at h
  · cases h
  · split at h
    · rename_i reg2 heq
      cases h
      exact (updateFlags_ok_inv _ _ _ heq).1
    · cases h

theorem execLEA_cond (fuel : Nat) (s s1 : State) (instr : Nat)
    (h : execLEA fuel s instr = .ok s1) : oneFlag (s1.reg R_COND) :=
  execLD_cond fuel s s1 instr h

/-- After a flag-setting instruction that completes the condition register
holds exactly one flag; after any other instruction that completes it is what
it was. -/
theorem execOp_cond_cases (fuel : Nat) (s s1 : State) (instr : Nat)
    (h : execOp fuel s instr = .ok s1) :
    (isFlagSetting (instr >>> 12) ∧ oneFlag (s1.reg R_COND)) ∨
      (¬ isFlagSetting (instr >>> 12) ∧ s1.reg R_COND = s.reg R_COND) := by
  by_cases h1 : instr >>> 12 = OP_ADD
  · rw [execOp_of_ADD _ _ _ h1] at h
    exact Or.inl ⟨by rw [h1]; decide, execADD_cond s s1 instr h⟩
  by_cases h2 : instr >>> 12 = OP_AND
  · rw [execOp_of_AND _ _ _ h2] at h
    exact Or.inl ⟨by rw [h2]; decide, execAND_cond s s1 instr h⟩
  by_cases h3 : instr >>> 12 = OP_NOT
  · rw [execOp_of_NOT _ _ _ h3] at h
    exact Or.inl ⟨by rw [h3]; decide, execNOT_cond s s1 instr h⟩
  by_cases h4 : instr >>> 12 = OP_BR
  · rw [execOp_of_BR _ _ _ h4] at h
    exact Or.inr ⟨by rw [h4]; decide, execBR_cond s s1 instr h⟩
  by_cases h5 : instr >>> 12 = OP_JMP
  · rw [execOp_of_JMP _ _ _ h5] at h
    exact Or.inr ⟨by rw [h5]; decide, execJMP_cond s s1 instr h⟩
  by_cases h6 : instr >>> 12 = OP_JSR
  · rw [execOp_of_JSR _ _ _ h6] at h
    exact Or.inr ⟨by rw [h6]; decide, execJSR_cond s s1 instr h⟩
  by_cases h7 : instr >>> 12 = OP_LD
  · rw [execOp_of_LD _ _ _ h7] at h
    exact Or.inl ⟨by rw [h7]; decide, execLD_cond fuel s s1 instr h⟩
  by_cases h8 : instr >>> 12 = OP_LDI
  · rw [execOp_of_LDI _ _ _ h8] at h
    exact Or.inl ⟨by rw [h8]; decide, execLDI_cond fuel s s1 instr h⟩
  by_cases h9 : instr >>> 12 = OP_LDR
  · rw [execOp_of_LDR _ _ _ h9] at h
    exact Or.inl ⟨by rw [h9]; decide, execLDR_cond fuel s s1 instr h⟩
  by_cases h10 : instr >>> 12 = OP_LEA
  · rw [execOp_of_LEA _ _ _ h10] at h
    exact Or.inl ⟨by rw [h10]; decide, execLEA_cond fuel s s1 instr h⟩
  by_cases h11 : instr >>> 12 = OP_ST
  · rw [execOp_of_ST _ _ _ h11] at h
    exact Or.inr ⟨by rw [h11]; decide, by rw [execST_reg s s1 instr h]⟩
  by_cases h12 : instr >>> 12 = OP_STI
  · rw [execOp_of_STI _ _ _ h12] at h
    exact Or.inr ⟨by rw [h12]; decide, by rw [execSTI_reg fuel s s1 instr h]⟩
  by_cases h13 : instr >>> 12 = OP_STR
  · rw [execOp_of_STR _ _ _ h13] at h
    exact Or.inr ⟨by rw [h13]; decide, by rw [execSTR_reg s s1 instr h]⟩
  by_cases h14 : instr >>> 12 = OP_TRAP
  · rw [execOp_of_TRAP _ _ _ h14] at h
    exact Or.inr ⟨by rw [h14]; decide, execTRAP_cond fuel s s1 instr h⟩
  exfalso
  unfold execOp at h
  simp only [h1, h2, h3, h4, h5, h6, h7, h8, h9, h10, h11, h12, h13, h14, if_false] at h
  split at h
  · cases h
  · split at h <;> cases h

/-- After any instruction that completes, the condition register is what it
was or holds exactly one flag. -/
theorem execOp_cond (fuel : Nat) (s s1 : State) (instr : Nat)
    (h : execOp fuel s instr = .ok s1) :
    s1.reg R_COND = s.reg R_COND ∨ oneFlag (s1.reg R_COND) := by
  rcases execOp_cond_cases fuel s s1 instr h with h1 | h1
  · exact Or.inr h1.2
  · exact Or.inl h1.2

/-- One pass of the loop body that returns leaves the condition register as
it was or holding exactly one flag, and always clears `running`. -/
theorem loopBody_ok_inv (fuel : Nat) (s s1 : State) (h : loopBody fuel s = .ok s1) :
    (s1.reg R_COND = s.reg R_COND ∨ oneFlag (s1.reg R_COND)) ∧ s1.running = 0 := by
  simp only [loopBody] at h
  split at h
  · cases h
  · split at h
    · cases h
    · rename_i s2 heq
      cases h
      have hc := execOp_cond _ _ _ _ heq
      exact ⟨hc, rfl⟩

/-- In every state of a run the condition register is zero or holds exactly
one flag. -/
theorem reachable_cond (s : State) (h : Reachable s) :
    s.reg R_COND = 0 ∨ oneFlag (s.reg R_COND) := by
  induction h with
  | start mem keyBuffer => exact Or.inl rfl
  | pass fuel s s1 _ hstep ih =>
    rcases (loopBody_ok_inv fuel s s1 hstep).1 with h1 | h1
    · rw [h1]; exact ih
    · exact Or.inr h1

/-! ### The loop returns after one pass -/

/-- Entered with `running` non-zero, the loop of `main` returns the state left
by its first pass: the pass has cleared `running`. -/
theorem runLoop_one_pass (fuel : Nat) (s s1 : State) (hr : s.running ≠ 0)
    (h : loopBody (fuel + 1) s = .ok s1) : runLoop (fuel + 2) s = .ok s1 := by
  have h0 : s1.running = 0 := (loopBody_ok_inv _ _ _ h).2
  simp [runLoop, hr, h, h0]

/-! ### Jumps always complete, stores complete inside the array -/

theorem execBR_total (s : State) (instr : Nat) : ∃ s1, execBR s instr = .ok s1 := by
  simp only [execBR]
  split <;> exact ⟨_, rfl⟩

theorem execJMP_total (s : State) (instr : Nat) : ∃ s1, execJMP s instr = .ok s1 :=
  ⟨_, rfl⟩

theorem execJSR_total (s : State) (instr : Nat) : ∃ s1, execJSR s instr = .ok s1 := by
  simp only [execJSR]
  split <;> exact ⟨_, rfl⟩

/-- ST stores `reg[sr]` at the counter plus the signed reading of bits 8-0
when that address is inside the array, and ends in the run-time panic
otherwise. -/
theorem execOp_ST_cases (fuel : Nat) (s : State) (instr : Nat)
    (hop : instr >>> 12 = OP_ST) :
    let A : Nat := encode16 ((s.reg R_PC : Int) + signedOfLowBits (bits instr 8 0) 9)
    execOp fuel s instr =
      if A < MEM_SIZE then
        .ok { s with mem := Function.update s.mem A (s.reg (bits instr 11 9)) }
      else .error .indexOutOfRange := by
  intro A
  have hs : signExtend (bits instr 8 0) 9 = encode16 (signedOfLowBits (bits instr 8 0) 9) :=
    signExtend_bits instr 9 (Or.inr (Or.inr (Or.inl rfl)))
  rw [execOp_of_ST fuel s instr hop]
  simp only [execST, fld_11_9 instr, fld_8_0 instr]
  rw [hs, add_encode16]
  by_cases hA : A < MEM_SIZE
  · rw [if_pos hA, memWrite_plain _ _ _ hA]
  · rw [if_neg hA, memWrite_outside _ _ _ (Nat.le_of_not_lt hA)]

/-- STI stores `reg[sr]` at the address held in the cell `A`, for `A` the
counter plus the signed reading of bits 8-0, when both addresses are ordinary
cells of the array. -/
theorem execOp_STI_in_range (fuel : Nat) (s : State) (instr : Nat)
    (hop : instr >>> 12 = OP_STI)
    (hA : encode16 ((s.reg R_PC : Int) + signedOfLowBits (bits instr 8 0) 9) ≠ MR_KBSR ∧
      encode16 ((s.reg R_PC : Int) + signedOfLowBits (bits instr 8 0) 9) < MEM_SIZE)
    (hB : s.mem (encode16 ((s.reg R_PC : Int) + signedOfLowBits (bits instr 8 0) 9)) % 65536
        < MEM_SIZE) :
    let A : Nat := encode16 ((s.reg R_PC : Int) + signedOfLowBits (bits instr 8 0) 9)
    execOp (fuel + 1) s instr =
      .ok { s with mem := Function.update s.mem (s.mem A % 65536) (s.reg (bits instr 11 9)) } := by
  intro A
  have hs : signExtend (bits instr 8 0) 9 = encode16 (signedOfLowBits (bits instr 8 0) 9) :=
    signExtend_bits instr 9 (Or.inr (Or.inr (Or.inl rfl)))
  rw [execOp_of_STI (fuel + 1) s instr hop]
  simp only [execSTI, fld_11_9 instr, fld_8_0 instr]
  rw [hs, add_encode16, memRead_plain fuel s.mem _ hA.1 hA.2]
  simp only []
  rw [memWrite_plain _ _ _ hB]

/-! ### What the verb `%c` writes for a 16-bit word -/

/-- For a 16-bit word the character written has the code of the word, or is
`U+FFFD` when the word is a surrogate value. -/
theorem printedRune_word (c : Nat) (hc : c < 65536) :
    printedRune c = if 0xD800 ≤ c ∧ c ≤ 0xDFFF then 0xFFFD else c := by
  unfold printedRune
  have : ¬ 0x10FFFF < c := by omega
  rw [if_neg this]

/-- The character written for a 16-bit word has the code of the low byte of
the word exactly when the high byte of the word is zero. -/
theorem printedRune_eq_low_byte_iff (c : Nat) (hc : c < 65536) :
    printedRune c = c &&& 0xFF ↔ c < 256 := by
  rw [printedRune_word c hc,
    show c &&& 0xFF = c % 2 ^ 8 from Nat.and_pow_two_sub_one_eq_mod c 8]
  norm_num
  split <;> omega

/-! ### The loop of `TRAP_PUTS` -/

/-- On `n` non-zero words followed by a zero word, all inside the array, the
loop of `TRAP_PUTS` writes the `n` characters and then the character with
code 0 for the terminator. -/
theorem putsLoop_string (mem : Nat → Nat) (r0 : Nat) (n : Nat) :
    ∀ (fuel i : Nat) (out : List Out),
      (∀ j, j ≤ n → (r0 + i + j) % 65536 < MEM_SIZE) →
      (∀ j, j < n → mem ((r0 + i + j) % 65536) &&& 0xFFFF ≠ 0) →
      mem ((r0 + i + n) % 65536) &&& 0xFFFF = 0 →
      putsLoop (fuel + n + 1) mem r0 i out =
        .ok (out ++ (List.range n).map
            (fun j => Out.chr (printedRune (mem ((r0 + i + j) % 65536) &&& 0xFFFF)))
          ++ [Out.chr 0]) := by
  induction n with
  | zero =>
    intro fuel i out hin _ hz
    have h0 := hin 0 (Nat.le_refl 0)
    simp only [Nat.add_zero] at h0 hz
    simp [putsLoop, h0, hz, printedRune]
  | succ n ih =>
    intro fuel i out hin hnz hz
    have h0 := hin 0 (Nat.zero_le _)
    have hc := hnz 0 (Nat.succ_pos n)
    simp only [Nat.add_zero] at h0 hc
    have hidx : ∀ j, (r0 + (i + 1) % 65536 + j) % 65536 = (r0 + i + (j + 1)) % 65536 := by
      intro j; omega
    have hstep : putsLoop (fuel + (n + 1) + 1) mem r0 i out =
        putsLoop (fuel + n + 1) mem r0 ((i + 1) % 65536)
          (out ++ [Out.chr (printedRune (mem ((r0 + i) % 65536) &&& 0xFFFF))]) := by
      rw [show fuel + (n + 1) + 1 = (fuel + n + 1) + 1 by omega]
      simp [putsLoop, h0, hc]
    rw [hstep, ih fuel ((i + 1) % 65536) _
      (fun j hj => by rw [hidx]; exact hin (j + 1) (by omega))
      (fun j hj => by rw [hidx]; exact hnz (j + 1) (by omega))
      (by rw [hidx]; exact hz)]
    simp only [hidx, List.range_succ_eq_map, List.map_cons, List.map_map, Nat.add_zero,
      List.append_assoc, List.singleton_append, List.cons_append]
    rfl

/-! ## Theorems for the claims -/

/-- C2, as stated, fails: for `x = 0x20` and width 5 the low five bits of `x`
are zero, so the signed reading is 0, while `signExtend` finds bit 4 clear and
returns `x` unchanged, bit 5 included. -/
theorem signExtend_keeps_high_bits_counterexample :
    0x20 < 65536 ∧ signExtend 0x20 5 = 0x20 ∧ encode16 (signedOfLowBits 0x20 5) = 0 ∧
      signExtend 0x20 5 ≠ encode16 (signedOfLowBits 0x20 5) := by
  decide

/-- C2, amended: for every 16-bit `x` and every width in 5, 6, 9, 11, if the
bits of `x` above the width are zero (every caller masks the field first) or
bit `width - 1` of `x` is set, then `signExtend x width` is the 16-bit
two's-complement encoding of the signed integer that the low `width` bits of
`x` represent; and when bit `width - 1` is clear the result is `x` itself. -/
theorem signExtend_sound_on_masked_field (x w : Nat)
    (hw : w = 5 ∨ w = 6 ∨ w = 9 ∨ w = 11) (hx : x < 65536) :
    (x < 2 ^ w ∨ x.testBit (w - 1) = true →
        signExtend x w = encode16 (signedOfLowBits x w)) ∧
      (x.testBit (w - 1) = false → signExtend x w = x) := by
  refine ⟨signExtend_eq_encode16 x w hw hx, fun hb => ?_⟩
  apply signExtend_of_not_bit
  have := testBit_iff_div_mod x (w - 1)
  have h2 : x / 2 ^ (w - 1) % 2 < 2 := Nat.mod_lt _ (by norm_num)
  rw [hb] at this
  simp at this
  omega

theorem signExtend_sound_on_masked_field_witness :
    (0x1F < 2 ^ 5 ∨ Nat.testBit 0x1F (5 - 1) = true →
        signExtend 0x1F 5 = encode16 (signedOfLowBits 0x1F 5)) ∧
      (Nat.testBit 0x1F (5 - 1) = false → signExtend 0x1F 5 = 0x1F) :=
  signExtend_sound_on_masked_field 0x1F 5 (Or.inl rfl) (by decide)

/-- C3: for every register index `r` in 0..7 and every 16-bit `v`, writing `v`
to register `r` and calling `updateFlags r` returns normally, leaves every
register but the condition register as it was after the write, and puts into
the condition register exactly one of the three flags: `FL_ZRO` when `v = 0`,
`FL_NEG` when bit 15 of `v` is set, `FL_POS` otherwise, whatever the condition
register held before. -/
theorem updateFlags_after_write (reg : Nat → Nat) (r v : Nat) (hr : r < 8) (hv : v < 65536) :
    updateFlags (Function.update reg r v) r =
        .ok (Function.update (Function.update reg r v) R_COND (flagOf v)) ∧
      (flagOf v = FL_ZRO ↔ v = 0) ∧
      (flagOf v = FL_NEG ↔ v ≠ 0 ∧ v.testBit 15 = true) ∧
      (flagOf v = FL_POS ↔ v ≠ 0 ∧ v.testBit 15 = false) ∧
      (FL_POS ≠ FL_ZRO ∧ FL_POS ≠ FL_NEG ∧ FL_ZRO ≠ FL_NEG) := by
  refine ⟨?_, (flagOf_cases v).1, (flagOf_cases v).2.1, (flagOf_cases v).2.2, by decide⟩
  have h := updateFlags_eq (Function.update reg r v) r (by unfold R_COUNT; omega)
    (by simpa using hv)
  simpa using h

theorem updateFlags_after_write_witness :
    updateFlags (Function.update (fun _ => 7) 3 0x8000) 3 =
        .ok (Function.update (Function.update (fun _ => 7) 3 0x8000) R_COND (flagOf 0x8000)) ∧
      (flagOf 0x8000 = FL_ZRO ↔ 0x8000 = 0) ∧
      (flagOf 0x8000 = FL_NEG ↔ 0x8000 ≠ 0 ∧ Nat.testBit 0x8000 15 = true) ∧
      (flagOf 0x8000 = FL_POS ↔ 0x8000 ≠ 0 ∧ Nat.testBit 0x8000 15 = false) ∧
      (FL_POS ≠ FL_ZRO ∧ FL_POS ≠ FL_NEG ∧ FL_ZRO ≠ FL_NEG) :=
  updateFlags_after_write (fun _ => 7) 3 0x8000 (by decide) (by decide)

/-- C4: for every state and every word with opcode ADD, the `switch` returns
normally with register `dr` (bits 11-9) holding `(reg[sr1] + operand) mod 2^16`,
where `sr1` is bits 8-6 and the operand is `reg[sr2]` (bits 2-0) when bit 5 is
0 and the signed reading of bits 4-0, an integer in -16..15, when bit 5 is 1;
the condition register then holds the flag of the new value of `dr`, and
nothing else changes.  With `reg[sr1] = 5` and immediate field `0b11111` the
new value is 4 and the flag is `FL_POS`. -/
theorem execOp_ADD_spec (fuel : Nat) (s : State) (instr : Nat) (hop : instr >>> 12 = OP_ADD) :
    let operand : Int :=
      if bits instr 5 5 = 0 then (s.reg (bits instr 2 0) : Int)
      else signedOfLowBits (bits instr 4 0) 5
    let v : Nat := encode16 ((s.reg (bits instr 8 6) : Int) + operand)
    execOp fuel s instr =
        .ok { s with reg := Function.update (Function.update s.reg (bits instr 11 9) v)
                              R_COND (flagOf v) } ∧
      (-16 ≤ signedOfLowBits (bits instr 4 0) 5 ∧ signedOfLowBits (bits instr 4 0) 5 ≤ 15) ∧
      (bits instr 5 5 = 1 → bits instr 4 0 = 0b11111 → s.reg (bits instr 8 6) = 5 →
        v = 4 ∧ flagOf v = FL_POS) := by
  intro operand v
  have hrange := signedOfLowBits_range (bits instr 4 0) 5 (by norm_num)
  have hb5 : bits instr 5 5 < 2 := bits_lt instr 5 5
  refine ⟨?_, ⟨by simpa using hrange.1, by have := hrange.2; norm_num at this; omega⟩, ?_⟩
  · rw [execOp_of_ADD fuel s instr hop]
    simp only [execADD, fld_11_9 instr, fld_8_6 instr, fld_5_5 instr, fld_4_0 instr,
      fld_2_0 instr]
    have hv : (if bits instr 5 5 = 1 then
          Function.update s.reg (bits instr 11 9)
            ((s.reg (bits instr 8 6) + signExtend (bits instr 4 0) 5) % 65536)
        else
          Function.update s.reg (bits instr 11 9)
            ((s.reg (bits instr 8 6) + s.reg (bits instr 2 0)) % 65536)) =
        Function.update s.reg (bits instr 11 9) v := by
      by_cases h5 : bits instr 5 5 = 1
      · have hop5 : operand = signedOfLowBits (bits instr 4 0) 5 := by
          simp [operand, h5]
        have hs : signExtend (bits instr 4 0) 5 =
            encode16 (signedOfLowBits (bits instr 4 0) 5) :=
          signExtend_bits instr 5 (Or.inl rfl)
        rw [if_pos h5, hs, add_encode16]
        simp only [v, hop5]
      · have h0 : bits instr 5 5 = 0 := by omega
        have hop5 : operand = (s.reg (bits instr 2 0) : Int) := by
          simp [operand, h0]
        rw [if_neg h5, encode16_natCast]
        simp only [v, hop5]
    rw [hv]
    have hfl := updateFlags_eq (Function.update s.reg (bits instr 11 9) v) (bits instr 11 9)
      (by have := bits_lt instr 11 9; unfold R_COUNT; norm_num at this; omega)
      (by simpa using encode16_lt _)
    rw [hfl]
    simp
  · intro h5 h40 hsr
    have hv4 : v = 4 := by
      have hop5 : operand = signedOfLowBits 0b11111 5 := by
        simp [operand, h5, h40]
      simp only [v, hop5, hsr]
      decide
    rw [hv4]
    exact ⟨rfl, by decide⟩

theorem execOp_ADD_spec_witness :
    (0x127F : Nat) >>> 12 = OP_ADD ∧
      ∃ s1, execOp 0 addState 0x127F = .ok s1 ∧ s1.reg R_R1 = 4 ∧ s1.reg R_COND = FL_POS :=
  ⟨by decide, _, (execOp_ADD_spec 0 addState 0x127F (by decide)).1, by decide, by decide⟩

/-- C1, evaluated on the code: with the counter at `0x3000`, `ADD R0, R0, #1`
at `0x3000` and `ADD R1, R1, #2` at `0x3001`, one pass of the loop body
executes the word at `0x3001` (so `R1 = 2` and `R0` stays 0) and leaves the
counter at `0x3000`; the claim asks for the word at `0x3000` to be executed
and for a counter of `0x3001`. -/
theorem loopBody_fetches_past_counter :
    ∃ s1, loopBody 1 fetchState = .ok s1 ∧
      s1.reg R_PC = 0x3000 ∧ s1.reg R_R0 = 0 ∧ s1.reg R_R1 = 2 ∧ s1.running = 0 :=
  ⟨_, rfl, by decide, by decide, by decide, rfl⟩

/-- C5, evaluated on the code: the example of the claim holds (with
`mem[0x3000] = 0x3001`, `mem[0x3001] = 0x002A` and offset 0 from a counter of
`0x3000`, `LDI R0` loads `0x002A` and sets `FL_POS`), but with
`mem[0x3000] = 0xFFFF` the second read indexes the 65535-cell array at 65535
and the instruction ends in the run-time panic instead of loading
`mem[0xFFFF]`. -/
theorem execOp_LDI_example_and_top_cell (fuel : Nat) :
    (∃ s1, execOp (fuel + 1) ldiState 0xA000 = .ok s1 ∧
        s1.reg R_R0 = 0x002A ∧ s1.reg R_COND = FL_POS) ∧
      execOp (fuel + 1) ldiTopState 0xA000 = .error .indexOutOfRange :=
  ⟨⟨_, rfl, by decide, by decide⟩, rfl⟩

/-- C6, evaluated on the code: with `R1 = 0x4000`, `mem[0x4000] = 0x1234` and
`mem[1] = 0x5678`, `LDR R0, R1, #0` loads `0x5678`, the cell whose address is
the register number 1, not `0x1234`, the cell at `reg[R1]`. -/
theorem execOp_LDR_uses_register_number (fuel : Nat) :
    ldrState.mem (ldrState.reg R_R1) = 0x1234 ∧
      ∃ s1, execOp (fuel + 1) ldrState 0x6040 = .ok s1 ∧ s1.reg R_R0 = 0x5678 :=
  ⟨by decide, _, rfl, by decide⟩

/-- C7, evaluated on the code: with the counter at `0x3000` and
`mem[0x3002] = 0x1234`, `LEA R0, #2` reads memory and leaves `0x1234`, the
contents of the cell, in `R0`, not the address `0x3002`; without fuel for the
read it does not complete, and the outcome is that of `LD R0, #2` (word
`0x2002`). -/
theorem execOp_LEA_loads_contents (fuel : Nat) :
    (∃ s1, execOp (fuel + 1) leaState 0xE002 = .ok s1 ∧ s1.reg R_R0 = 0x1234) ∧
      execOp 0 leaState 0xE002 = .error .outOfFuel ∧
      execOp (fuel + 1) leaState 0xE002 = execOp (fuel + 1) leaState 0x2002 :=
  ⟨⟨_, rfl, by decide⟩, rfl, rfl⟩

/-- C10, evaluated on the code: with `R1 = 0x4000` and `R0 = 0x00AB`,
`STR R0, R1, #0` stores `0x00AB` at `0x4000`; with `R1 = 0xFFFF` the store
indexes the 65535-cell array at 65535 and ends in the run-time panic instead
of writing the cell. -/
theorem execOp_STR_example_and_top_cell (fuel : Nat) :
    (∃ s1, execOp fuel strState 0x7040 = .ok s1 ∧ s1.mem 0x4000 = 0x00AB) ∧
      execOp fuel strTopState 0x7040 = .error .indexOutOfRange :=
  ⟨⟨_, rfl, by decide⟩, rfl⟩

/-- C8: for every state and every word with opcode BR, the `switch` returns
normally; the branch is taken exactly when the bitwise AND of bits 11-9 with
the condition register is non-zero, and then the counter becomes the old
counter plus the signed reading of bits 8-0, modulo `2 ^ 16`; otherwise the
state is returned as it was.  In both cases every register other than the
counter (R0-R7 and the condition register), memory, the key buffer and the
output are unchanged. -/
theorem execOp_BR_spec (fuel : Nat) (s : State) (instr : Nat) (hop : instr >>> 12 = OP_BR) :
    execOp fuel s instr =
        .ok (if bits instr 11 9 &&& s.reg R_COND ≠ 0 then
              { s with reg := (Function.update s.reg R_PC
                  (encode16 ((s.reg R_PC : Int) + signedOfLowBits (bits instr 8 0) 9))) }
            else s) ∧
      ∀ s1, execOp fuel s instr = .ok s1 →
        (∀ k, k ≠ R_PC → s1.reg k = s.reg k) ∧ s1.mem = s.mem ∧
          s1.keyBuffer = s.keyBuffer ∧ s1.out = s.out := by
  have hs : signExtend (bits instr 8 0) 9 = encode16 (signedOfLowBits (bits instr 8 0) 9) :=
    signExtend_bits instr 9 (Or.inr (Or.inr (Or.inl rfl)))
  have heq : execOp fuel s instr =
      .ok (if bits instr 11 9 &&& s.reg R_COND ≠ 0 then
            { s with reg := (Function.update s.reg R_PC
                (encode16 ((s.reg R_PC : Int) + signedOfLowBits (bits instr 8 0) 9))) }
          else s) := by
    rw [execOp_of_BR fuel s instr hop]
    simp only [execBR, fld_11_9 instr, fld_8_0 instr]
    rw [hs, add_encode16]
    split <;> rfl
  refine ⟨heq, fun s1 h1 => ?_⟩
  rw [heq] at h1
  have h2 := Except.ok.inj h1
  subst h2
  split
  · refine ⟨fun k hk => ?_, rfl, rfl, rfl⟩
    simp [Function.update, hk]
  · exact ⟨fun _ _ => rfl, rfl, rfl, rfl⟩

theorem execOp_BR_spec_witness :
    (0x0802 : Nat) >>> 12 = OP_BR ∧
      ∃ s1, execOp 0 brState 0x0802 = .ok s1 ∧ s1.reg R_PC = 0x3002 ∧
        s1.reg R_COND = FL_NEG :=
  ⟨by decide, _, (execOp_BR_spec 0 brState 0x0802 (by decide)).1, by decide, by decide⟩

/-- C9: for every state and every word with opcode JSR/JSRR, the `switch`
returns normally; R7 receives the value the counter has when the instruction
executes, and after that the counter becomes the content of register `baseR`
(bits 8-6), read after the write to R7, when bit 11 is 0, and the old counter
plus the signed reading of bits 10-0, modulo `2 ^ 16`, when bit 11 is 1.  The
condition register, memory, the key buffer, the output and the registers
R0-R6 are unchanged; for `baseR` other than R7 the register read is the one
the state held before the instruction. -/
theorem execOp_JSR_spec (fuel : Nat) (s : State) (instr : Nat) (hop : instr >>> 12 = OP_JSR) :
    let reg1 : Nat → Nat := Function.update s.reg R_R7 (s.reg R_PC)
    let target : Nat :=
      if bits instr 11 11 = 0 then reg1 (bits instr 8 6)
      else encode16 ((s.reg R_PC : Int) + signedOfLowBits (bits instr 10 0) 11)
    execOp fuel s instr = .ok { s with reg := Function.update reg1 R_PC target } ∧
      (bits instr 8 6 ≠ R_R7 → reg1 (bits instr 8 6) = s.reg (bits instr 8 6)) ∧
      Function.update reg1 R_PC target R_R7 = s.reg R_PC ∧
      Function.update reg1 R_PC target R_PC = target ∧
      ∀ k, k ≠ R_R7 → k ≠ R_PC → Function.update reg1 R_PC target k = s.reg k := by
  intro reg1 target
  have hs : signExtend (bits instr 10 0) 11 =
      encode16 (signedOfLowBits (bits instr 10 0) 11) :=
    signExtend_bits instr 11 (Or.inr (Or.inr (Or.inr rfl)))
  refine ⟨?_, ?_, ?_, ?_, ?_⟩
  · rw [execOp_of_JSR fuel s instr hop]
    simp only [execJSR, fld_11_11 instr, fld_8_6 instr, fld_10_0 instr]
    by_cases hb : bits instr 11 11 = 0
    · have ht : target = reg1 (bits instr 8 6) := by simp [target, hb]
      rw [if_pos hb, ht, fld_8_6 instr]
    · have ht : target =
          encode16 ((s.reg R_PC : Int) + signedOfLowBits (bits instr 10 0) 11) := by
        simp [target, hb]
      have hpc : Function.update s.reg R_R7 (s.reg R_PC) R_PC = s.reg R_PC := by
        simp [Function.update, R_PC, R_R7]
      rw [if_neg hb, ht, hpc, hs, add_encode16]
  · intro h7
    simp [reg1, Function.update, h7]
  · simp [reg1, Function.update, R_PC, R_R7]
  · simp [Function.update]
  · intro k h7 hpc
    simp [reg1, Function.update, h7, hpc]

theorem execOp_JSR_spec_witness :
    (0x4080 : Nat) >>> 12 = OP_JSR ∧
      ∃ s1, execOp 0 jsrState 0x4080 = .ok s1 ∧ s1.reg R_R7 = 0x3000 ∧
        s1.reg R_PC = 0x5000 :=
  ⟨by decide, _, (execOp_JSR_spec 0 jsrState 0x4080 (by decide)).1, by decide, by decide⟩

/-- C11, evaluated on the code: the array `mem` has 65535 cells, so for the
16-bit address `0xFFFF` both `memWrite` and `memRead` index the array at
65535, outside its bounds, and end in the run-time panic, whatever the memory
and the word written. -/
theorem memory_top_address_outside_array (fuel : Nat) (mem : Nat → Nat) (v : Nat) :
    MEM_SIZE = 65535 ∧ memWrite mem 0xFFFF v = .error .indexOutOfRange ∧
      memRead (fuel + 1) mem 0xFFFF = .error .indexOutOfRange :=
  ⟨rfl, rfl, rfl⟩

/-- C12, evaluated on the code: `memRead(0xFE00)` never returns, for every
memory and every amount of fuel, so also in a state with a pending key such
as `keyState`; the function has no access to the key buffer at all.  A read
of any other address that returns leaves memory unchanged. -/
theorem memRead_status_never_returns (fuel : Nat) (mem : Nat → Nat) :
    keyState.keyBuffer = [0x41] ∧
      memRead fuel keyState.mem 0xFE00 = .error .outOfFuel ∧
      memRead fuel mem 0xFE00 = .error .outOfFuel ∧
      ∀ a v mem1, memRead fuel mem a = .ok (v, mem1) → mem1 = mem :=
  ⟨rfl, memRead_KBSR fuel _, memRead_KBSR fuel mem,
    fun a v mem1 h => (memRead_ok_inv fuel mem mem1 a v h).2⟩

/-- C13, as stated, fails: the state in which `main` enters its loop is a
state of the run, and its condition register is 0, which is none of the three
flags; the run of the Go program (all-zero memory, one pass) also ends with
the condition register at 0. -/
theorem startState_has_no_flag_counterexample :
    Reachable startState ∧ startState.reg R_PC = 0x3000 ∧ startState.reg R_COND = 0 ∧
      ¬ oneFlag (startState.reg R_COND) ∧
      ∃ s1, main 2 2 = .ok s1 ∧ Reachable s1 ∧ ¬ oneFlag (s1.reg R_COND) :=
  ⟨Reachable.start startState.mem startState.keyBuffer, by decide, by decide, by decide,
    _, rfl,
    Reachable.pass 1 startState _ (Reachable.start startState.mem startState.keyBuffer) rfl,
    by decide⟩

/-- C13, amended: in every state of a run the condition register holds at
most one flag, that is, it is 0 or exactly one of `FL_POS`, `FL_ZRO`,
`FL_NEG`; a flag-setting instruction (ADD, AND, NOT, LD, LDI, LDR, LEA) that
completes leaves exactly one flag, and every other instruction that completes
leaves the condition register as it was, so the register stays 0 from startup
until the first flag-setting instruction. -/
theorem reachable_at_most_one_flag (s : State) (h : Reachable s) :
    (s.reg R_COND = 0 ∨ oneFlag (s.reg R_COND)) ∧
      (∀ fuel instr s1, execOp fuel s instr = .ok s1 → isFlagSetting (instr >>> 12) →
        oneFlag (s1.reg R_COND)) ∧
      (∀ fuel instr s1, execOp fuel s instr = .ok s1 → ¬ isFlagSetting (instr >>> 12) →
        s1.reg R_COND = s.reg R_COND) := by
  refine ⟨reachable_cond s h, fun fuel instr s1 h1 hf => ?_, fun fuel instr s1 h1 hf => ?_⟩
  · rcases execOp_cond_cases fuel s s1 instr h1 with h2 | h2
    · exact h2.2
    · exact absurd hf h2.1
  · rcases execOp_cond_cases fuel s s1 instr h1 with h2 | h2
    · exact absurd h2.1 hf
    · exact h2.2

theorem reachable_at_most_one_flag_witness :
    Reachable startState ∧ (startState.reg R_COND = 0 ∨ oneFlag (startState.reg R_COND)) :=
  ⟨Reachable.start startState.mem startState.keyBuffer,
    (reachable_at_most_one_flag startState
      (Reachable.start startState.mem startState.keyBuffer)).1⟩

/-- C14: for every state and every word whose opcode is a store (ST, STI,
STR) or a jump (BR, JMP, JSR/JSRR), whenever the instruction completes the
condition register equals the condition register before it.  The jumps
always complete; ST and STR complete exactly when the address they write is
inside the array, and STI completes when both addresses it uses are ordinary
cells of the array. -/
theorem execOp_store_jump_keeps_cond (fuel : Nat) (s : State) (instr : Nat)
    (hop : instr >>> 12 = OP_ST ∨ instr >>> 12 = OP_STI ∨ instr >>> 12 = OP_STR ∨
      instr >>> 12 = OP_BR ∨ instr >>> 12 = OP_JMP ∨ instr >>> 12 = OP_JSR) :
    (∀ s1, execOp fuel s instr = .ok s1 → s1.reg R_COND = s.reg R_COND) ∧
      (instr >>> 12 = OP_BR ∨ instr >>> 12 = OP_JMP ∨ instr >>> 12 = OP_JSR →
        ∃ s1, execOp fuel s instr = .ok s1) ∧
      (instr >>> 12 = OP_ST →
        encode16 ((s.reg R_PC : Int) + signedOfLowBits (bits instr 8 0) 9) < MEM_SIZE →
        ∃ s1, execOp fuel s instr = .ok s1) ∧
      (instr >>> 12 = OP_STR →
        encode16 ((s.reg (bits instr 8 6) : Int) + signedOfLowBits (bits instr 5 0) 6)
          < MEM_SIZE →
        ∃ s1, execOp fuel s instr = .ok s1) ∧
      (instr >>> 12 = OP_STI →
        encode16 ((s.reg R_PC : Int) + signedOfLowBits (bits instr 8 0) 9) ≠ MR_KBSR →
        encode16 ((s.reg R_PC : Int) + signedOfLowBits (bits instr 8 0) 9) < MEM_SIZE →
        s.mem (encode16 ((s.reg R_PC : Int) + signedOfLowBits (bits instr 8 0) 9)) % 65536
          < MEM_SIZE →
        ∃ s1, execOp (fuel + 1) s instr = .ok s1) := by
  refine ⟨fun s1 h1 => ?_, fun hj => ?_, fun h3 hA => ?_, fun h3 hA => ?_,
    fun h3 hA1 hA2 hB => ?_⟩
  · rcases execOp_cond_cases fuel s s1 instr h1 with h2 | h2
    · exfalso
      have hf := h2.1
      rcases hop with h | h | h | h | h | h <;> rw [h] at hf <;> revert hf <;> decide
    · exact h2.2
  · rcases hj with h | h | h
    · rw [execOp_of_BR _ _ _ h]; exact execBR_total s instr
    · rw [execOp_of_JMP _ _ _ h]; exact execJMP_total s instr
    · rw [execOp_of_JSR _ _ _ h]; exact execJSR_total s instr
  · have h4 := execOp_ST_cases fuel s instr h3
    simp only [hA, if_true] at h4
    exact ⟨_, h4⟩
  · have h4 := execOp_STR_cases fuel s instr h3
    simp only [hA, if_true] at h4
    exact ⟨_, h4⟩
  · exact ⟨_, execOp_STI_in_range fuel s instr h3 ⟨hA1, hA2⟩ hB⟩

theorem execOp_store_jump_keeps_cond_witness :
    ((0x7040 : Nat) >>> 12 = OP_ST ∨ (0x7040 : Nat) >>> 12 = OP_STI ∨
        (0x7040 : Nat) >>> 12 = OP_STR ∨ (0x7040 : Nat) >>> 12 = OP_BR ∨
        (0x7040 : Nat) >>> 12 = OP_JMP ∨ (0x7040 : Nat) >>> 12 = OP_JSR) ∧
      ∃ s1, execOp 0 storeState 0x7040 = .ok s1 ∧ s1.mem 0x4000 = 0x00AB ∧
        s1.reg R_COND = FL_NEG :=
  ⟨by decide, _, rfl, by decide,
    (execOp_store_jump_keeps_cond 0 storeState 0x7040 (by decide)).1 _ rfl⟩

/-- C15, evaluated on the code: in every state the word `0xF025`, a TRAP with
the vector `TRAP_HALT`, falls into the `default` case of the inner `switch`:
the instruction only appends the line `Trap code not implemented` to the
output and completes like any unrecognized vector (here `0xF0FF`), leaving
`running` to the assignment at the end of the loop body. -/
theorem execOp_TRAP_halt_is_default_case (fuel : Nat) (s : State) :
    (0xF025 : Nat) &&& 0xFF = TRAP_HALT ∧
      execOp fuel s 0xF025 = .ok { s with out := s.out ++ [Out.trapNotImplemented 0xF025] } ∧
      execOp fuel s 0xF0FF = .ok { s with out := s.out ++ [Out.trapNotImplemented 0xF0FF] } :=
  ⟨by decide, rfl, rfl⟩

/-- C16, evaluated on the code: entered with the counter at `0x3000`, a TRAP
with the unrecognized vector `0xFF` in the cell fetched first and ADD words in
the cells after it, the loop reports the trap and returns; no further word is
fetched or executed (`R0` is still 0) and `running` is 0. -/
theorem runLoop_stops_after_unrecognized_trap (fuel : Nat) :
    ∃ s1, runLoop (fuel + 2) trapLoopState = .ok s1 ∧
      s1.out = [Out.trapNotImplemented 0xF0FF] ∧ s1.reg R_R0 = 0 ∧
      s1.reg R_PC = 0x3000 ∧ s1.running = 0 :=
  ⟨_, rfl, by decide, by decide, by decide, rfl⟩

/-- C17: for every state in which the fetch of the loop body returns a word
with opcode RTI (1000) or RES (1101), the pass ends in `os.Exit(2)` after the
line `NOT IMPLEMENTED YET!`, and the state at that point differs from the
state before the pass in the output only: every general register, the counter,
the condition register and every memory cell hold the values they held
before.  The opcode `switch` alone does the same on such a word in every
state. -/
theorem loopBody_reserved_opcode_faults (fuel : Nat) (s : State) (instr : Nat)
    (mem1 : Nat → Nat)
    (hfetch : memRead fuel s.mem ((s.reg R_PC + 1) % 65536) = .ok (instr, mem1))
    (hop : instr >>> 12 = OP_RTI ∨ instr >>> 12 = OP_RES) :
    loopBody fuel s =
        .error (.osExit 2 { s with out := s.out ++ [Out.notImplementedYet] }) ∧
      execOp fuel s instr =
        .error (.osExit 2 { s with out := s.out ++ [Out.notImplementedYet] }) := by
  have hm : mem1 = s.mem := (memRead_ok_inv fuel s.mem mem1 _ instr hfetch).2
  subst hm
  refine ⟨?_, execOp_of_reserved fuel s instr hop⟩
  simp only [loopBody, hfetch]
  rw [execOp_of_reserved fuel _ instr hop]

theorem loopBody_reserved_opcode_faults_witness :
    memRead 1 rtiState.mem ((rtiState.reg R_PC + 1) % 65536) = .ok (0x8000, rtiState.mem) ∧
      ((0x8000 : Nat) >>> 12 = OP_RTI ∨ (0x8000 : Nat) >>> 12 = OP_RES) ∧
      loopBody 1 rtiState =
        .error (.osExit 2 { rtiState with out := rtiState.out ++ [Out.notImplementedYet] }) :=
  ⟨rfl, by decide,
    (loopBody_reserved_opcode_faults 1 rtiState 0x8000 rtiState.mem rfl (by decide)).1⟩

/-- C18, evaluated on the code: with `R0 = 0x4000` and the words "O", "K", 0
from `0x4000`, TRAP PUTS writes three characters, "O", "K" and the character
with code 0: the loop prints each word before it tests it, so the zero
terminator is written too; the claim asks for exactly "OK". -/
theorem execOp_PUTS_writes_terminator (fuel : Nat) :
    ∃ s1, execOp (fuel + 3) putsState 0xF022 = .ok s1 ∧
      s1.out = [Out.chr 0x4F, Out.chr 0x4B, Out.chr 0] ∧
      s1.out ≠ [Out.chr 0x4F, Out.chr 0x4B] :=
  ⟨_, rfl, by decide, by decide⟩

/-- C19, as stated, fails: with `R0 = 0x0141` TRAP OUT writes the character
with code `0x0141`, the whole register, not the character with code `0x41`,
its low byte. -/
theorem execOp_OUT_whole_register_counterexample :
    ∃ s1, execOp 0 outState 0xF021 = .ok s1 ∧ s1.out = [Out.chr 0x0141] ∧
      (0x0141 : Nat) &&& 0xFF = 0x41 ∧ s1.out ≠ [Out.chr ((0x0141 : Nat) &&& 0xFF)] :=
  ⟨_, rfl, by decide, by decide, by decide⟩

/-- C19, amended: for every state, TRAP OUT (vector `0x21`) completes,
writes to the output exactly one character and changes no register and no
memory cell.  For a 16-bit R0 the character is the one the verb `%c` gives
for the whole value of R0: its code is R0 itself, except for R0 in
`0xD800`..`0xDFFF`, where it is `U+FFFD`; so the code of the character is the
low byte of R0 exactly when the high byte of R0 is zero. -/
theorem execOp_OUT_spec (fuel : Nat) (s : State) (instr : Nat)
    (hop : instr >>> 12 = OP_TRAP) (hvec : bits instr 7 0 = TRAP_OUT) :
    execOp fuel s instr =
        .ok { s with out := s.out ++ [Out.chr (printedRune (s.reg R_R0))] } ∧
      (s.reg R_R0 < 65536 →
        printedRune (s.reg R_R0) =
          if 0xD800 ≤ s.reg R_R0 ∧ s.reg R_R0 ≤ 0xDFFF then 0xFFFD else s.reg R_R0) ∧
      (s.reg R_R0 < 65536 →
        (printedRune (s.reg R_R0) = s.reg R_R0 &&& 0xFF ↔ s.reg R_R0 < 256)) := by
  refine ⟨?_, printedRune_word _, printedRune_eq_low_byte_iff _⟩
  rw [execOp_of_TRAP fuel s instr hop]
  simp only [execTRAP, fld_7_0 instr, hvec]
  rfl

theorem execOp_OUT_spec_witness :
    (0xF021 : Nat) >>> 12 = OP_TRAP ∧ bits 0xF021 7 0 = TRAP_OUT ∧
      (∃ s1, execOp 0 outState 0xF021 = .ok s1 ∧ s1.out = [Out.chr 0x0141] ∧
        s1.reg = outState.reg ∧ s1.mem = outState.mem) ∧
      (∃ s1, execOp 0 surrogateState 0xF021 = .ok s1 ∧ s1.out = [Out.chr 0xFFFD]) ∧
      ∃ s1, execOp 0 addState 0xF021 = .ok s1 ∧ s1.out = [Out.chr 0] :=
  ⟨by decide, by decide,
    ⟨_, (execOp_OUT_spec 0 outState 0xF021 (by decide) (by decide)).1, by decide, rfl, rfl⟩,
    ⟨_, (execOp_OUT_spec 0 surrogateState 0xF021 (by decide) (by decide)).1, by decide⟩,
    ⟨_, (execOp_OUT_spec 0 addState 0xF021 (by decide) (by decide)).1, by decide⟩⟩

/-- C20: for every state and every JSRR word (opcode JSR, bit 11 = 0) the
instruction completes; with base register R7 the new counter is the value the
counter had when the instruction executed, the value just written to R7,
whatever R7 held before; with any other base register the new counter is the
value that register held before the instruction. -/
theorem execOp_JSRR_target (fuel : Nat) (s : State) (instr : Nat)
    (hop : instr >>> 12 = OP_JSR) (hmode : bits instr 11 11 = 0) :
    ∃ s1, execOp fuel s instr = .ok s1 ∧
      s1.reg R_R7 = s.reg R_PC ∧
      (bits instr 8 6 = R_R7 → s1.reg R_PC = s.reg R_PC) ∧
      (bits instr 8 6 ≠ R_R7 → s1.reg R_PC = s.reg (bits instr 8 6)) := by
  rw [execOp_of_JSR fuel s instr hop]
  simp only [execJSR, fld_11_11 instr, hmode, if_true]
  refine ⟨_, rfl, ?_, ?_, ?_⟩
  · simp [Function.update, R_PC, R_R7]
  · intro h7
    simp [fld_8_6 instr, h7, Function.update]
  · intro h7
    simp [fld_8_6 instr, h7, Function.update]

theorem execOp_JSRR_target_witness :
    (0x41C0 : Nat) >>> 12 = OP_JSR ∧ bits 0x41C0 11 11 = 0 ∧ bits 0x41C0 8 6 = R_R7 ∧
      jsrrState.reg R_R7 = 0x1111 ∧
      ∃ s1, execOp 0 jsrrState 0x41C0 = .ok s1 ∧ s1.reg R_PC = 0x3000 ∧
        s1.reg R_R7 = 0x3000 :=
  ⟨by decide, by decide, by decide, by decide,
    (execOp_JSRR_target 0 jsrrState 0x41C0 (by decide) (by decide)).imp
      (fun _ h => ⟨h.1, h.2.2.1 (by decide), h.2.1⟩)⟩

end LC3
